import Mathlib

/-!
# TinyTensor: tensor container and linear quantizer (`main.c`)

A shallow embedding of `create_tensor` and `quantize_tensor`.

Modelling conventions.
* `int` is a 32-bit two's-complement integer: arithmetic results are reduced
  by `wrapInt`.  `int8_t` is reduced by `wrapInt8`.
* A heap buffer is a list; `NULL` is `Option.none` in a pointer position.
* A function result of type `Option _` is `none` exactly when the C code
  would perform an out-of-bounds access, dereference `NULL`, read storage
  through the wrong member of the union, or convert a value that has no
  `int8_t` value.
* `printf` calls are recorded as a list of `Diag` events.
* The cells of an F32 buffer are finite `float` values, held exactly as
  rationals.  Comparisons of cells are exact in both readings below.
* `quantize_tensor` is given in two readings.  `TinyTensor.B32.quantize_tensor`
  computes `max_val - min_val`, `range / 255.0f` and `input[i] / scale` in
  binary32 (rounding to nearest-even, overflow to infinity, underflow, NaN),
  as the machine does.  `TinyTensor.quantize_tensor` is the exact-arithmetic
  reading of the same lines, with no rounding; it carries the laws on which
  the rounding of these three operations does not bear (which cells are
  written, the frame, the scan, the order and sign of codes, clamping of a
  given quotient, constant inputs).
-/

namespace TinyTensor

/-- The `DataType` enum. -/
inductive DataType where
  | DTYPE_FLOAT32
  | DTYPE_FLOAT16
  | DTYPE_INT8
  deriving DecidableEq, Repr

/-- The storage a `DataPointer` points to, seen through the member that was
used to allocate it. -/
inductive Buffer where
  | f32 (cells : List ℚ)
  | f16 (cells : List Nat)
  | i8 (cells : List Int)
  deriving DecidableEq

/-- The `Tensor` struct.  `shape` and `data` are pointers: `none` is `NULL`. -/
structure Tensor where
  shape : Option (List Int)
  ndim : Int
  size : Int
  dtype : DataType
  data : Option Buffer
  deriving DecidableEq

/-- Reduction of a mathematical integer to the value of a 32-bit `int`. -/
def wrapInt (z : Int) : Int := (z + 2147483648) % 4294967296 - 2147483648

/-- Reduction of a mathematical integer to the value of an `int8_t`. -/
def wrapInt8 (z : Int) : Int := (z + 128) % 256 - 128

/-- Conversion of an `int` to `size_t` (64 bit). -/
def toSizeT (z : Int) : Nat := (z % 18446744073709551616).toNat

/-- Product of two `size_t` values. -/
def mulSizeT (a b : Nat) : Nat := (a * b) % 18446744073709551616

/-- Value of `sizeof(int)`. -/
def sizeofInt : Nat := 4

/-- Value of `sizeof(Tensor)` on an LP64 target. -/
def sizeofTensor : Nat := 32

/-- Element width in bytes selected by the `switch(dtype)` of `create_tensor`. -/
def elemWidth : DataType → Nat
  | .DTYPE_FLOAT32 => 4
  | .DTYPE_FLOAT16 => 2
  | .DTYPE_INT8 => 1

/-- The environment of `malloc`: whether the `k`-th request of a call (for
`bytes` bytes) is granted, and the indeterminate contents of fresh cells. -/
structure Allocator where
  grant : Nat → Nat → Bool
  junkInt : Nat → Int
  junkF32 : Nat → ℚ

/-- A fresh, uninitialised `int` buffer of `n` cells. -/
def freshInts (a : Allocator) (n : Nat) : List Int :=
  (List.range n).map fun i => wrapInt (a.junkInt i)

/-- A fresh, uninitialised data buffer of `n` cells for `dtype`. -/
def freshData (a : Allocator) (dtype : DataType) (n : Nat) : Buffer :=
  match dtype with
  | .DTYPE_FLOAT32 => .f32 ((List.range n).map a.junkF32)
  | .DTYPE_FLOAT16 => .f16 ((List.range n).map fun i => (a.junkInt i % 65536).toNat)
  | .DTYPE_INT8 => .i8 ((List.range n).map fun i => wrapInt8 (a.junkInt i))

/-- The loop `for (i = 0; i < ndim; i++) { t->shape[i] = shape[i]; t->size *= shape[i]; }`
with `k` iterations left, at index `i`, destination buffer `dst` and running
`size`. -/
def copyShape (shape : List Int) : Nat → Nat → List Int → Int → Option (List Int × Int)
  | 0, _, dst, size => some (dst, size)
  | k + 1, i, dst, size =>
    match shape[i]? with
    | none => none
    | some e =>
      if i < dst.length then
        copyShape shape k (i + 1) (dst.set i e) (wrapInt (size * e))
      else none

/-- The function `create_tensor`.  Outer `none`: undefined behaviour; inner
`none`: the `NULL` return. -/
def create_tensor (a : Allocator) (shape : List Int) (ndim : Int) (dtype : DataType) :
    Option (Option Tensor) :=
  if a.grant 0 sizeofTensor = false then some none
  else
    let shapeBytes := mulSizeT (toSizeT ndim) sizeofInt
    let shapeBuf : Option (List Int) :=
      if a.grant 1 shapeBytes then some (freshInts a (shapeBytes / sizeofInt)) else none
    let iters := ndim.toNat
    let looped : Option (Option (List Int) × Int) :=
      match shapeBuf with
      | none => if iters = 0 then some (none, 1) else none
      | some dst => (copyShape shape iters 0 dst 1).map fun r => (some r.1, r.2)
    match looped with
    | none => none
    | some (shp, size) =>
      let dataBytes := mulSizeT (toSizeT size) (elemWidth dtype)
      let data : Option Buffer :=
        if a.grant 2 dataBytes then some (freshData a dtype (dataBytes / elemWidth dtype))
        else none
      some (some { shape := shp, ndim := ndim, size := size, dtype := dtype, data := data })

/-- One line written by `printf` inside `quantize_tensor`. -/
inductive Diag where
  | typeMismatch
  | banner
  | params (min_val max_val scale : ℚ)
  deriving DecidableEq

/-- The C library function `round` on a finite value: nearest integer, halfway
cases away from zero. -/
def round (r : ℚ) : ℚ :=
  if 0 ≤ r then ((⌊r + 1 / 2⌋ : Int) : ℚ) else -((⌊-r + 1 / 2⌋ : Int) : ℚ)

/-- The conversion `(int8_t)v` of a floating value: discard the fraction
(toward zero), then reduce to 8 bits. -/
def castInt8 (v : ℚ) : Int :=
  wrapInt8 (if 0 ≤ v then ⌊v⌋ else -⌊-v⌋)

/-- The scan of lines 85-88 with `k` iterations left, at index `i`. -/
def scanMinMax (buf : List ℚ) : Nat → Nat → ℚ → ℚ → Option (ℚ × ℚ)
  | 0, _, min_val, max_val => some (min_val, max_val)
  | k + 1, i, min_val, max_val =>
    match buf[i]? with
    | none => none
    | some v =>
      scanMinMax buf k (i + 1) (if v < min_val then v else min_val)
        (if v > max_val then v else max_val)

/-- Lines 91-92, `range` and `scale`, in the exact-arithmetic reading (the
binary32 computation is `B32.scaleOf`). -/
def scaleOf (min_val max_val : ℚ) : ℚ :=
  let range := max_val - min_val
  if range = 0 then 1 else range / 255

/-- The clipping of lines 100-101. -/
def clip (scaled : ℚ) : ℚ :=
  let s1 := if scaled > 127 then 127 else scaled
  if s1 < -128 then -128 else s1

/-- The body of the encoding loop, lines 98-102, for one element `v`, in the
exact-arithmetic reading (the binary32 computation is `B32.encode`). -/
def encode (scale v : ℚ) : Int := castInt8 (round (clip (v / scale)))

/-- The encoding loop of lines 97-103 with `k` iterations left, at index `i`,
writing into `out`. -/
def encodeLoop (buf : List ℚ) (scale : ℚ) : Nat → Nat → List Int → Option (List Int)
  | 0, _, out => some out
  | k + 1, i, out =>
    match buf[i]? with
    | none => none
    | some v =>
      if i < out.length then encodeLoop buf scale k (i + 1) (out.set i (encode scale v))
      else none

/-- What a call of `quantize_tensor` leaves behind: both tensors and the
lines printed. -/
structure QResult where
  input : Tensor
  output : Tensor
  diag : List Diag
  deriving DecidableEq

/-- The function `quantize_tensor`, in the exact-arithmetic reading. -/
def quantize_tensor (input output : Tensor) : Option QResult :=
  if input.dtype ≠ .DTYPE_FLOAT32 ∨ output.dtype ≠ .DTYPE_INT8 then
    some { input := input, output := output, diag := [.typeMismatch] }
  else
    match input.data with
    | some (.f32 buf) =>
      match buf[0]? with
      | none => none
      | some v0 =>
        match scanMinMax buf (input.size - 1).toNat 1 v0 v0 with
        | none => none
        | some (min_val, max_val) =>
          let scale := scaleOf min_val max_val
          let diag := [Diag.banner, Diag.params min_val max_val scale]
          if input.size.toNat = 0 then
            some { input := input, output := output, diag := diag }
          else
            match output.data with
            | some (.i8 out) =>
              (encodeLoop buf scale input.size.toNat 0 out).map fun out1 =>
                { input := input, output := { output with data := some (.i8 out1) },
                  diag := diag }
            | _ => none
    | _ => none

/-- The running minimum and maximum of the scan, as a recursion over the cells
still to be visited. -/
def scanList : List ℚ → ℚ → ℚ → ℚ × ℚ
  | [], min_val, max_val => (min_val, max_val)
  | v :: vs, min_val, max_val =>
    scanList vs (if v < min_val then v else min_val) (if v > max_val then v else max_val)

/-- The pair `(min_val, max_val)` the scan reaches on contents `xs`: start
from cell 0, visit the rest. -/
def minMaxOf : List ℚ → ℚ × ℚ
  | [] => (0, 0)
  | v0 :: vs => scanList vs v0 v0

/-- The `scale` the quantizer derives from contents `xs`. -/
def quantScale (xs : List ℚ) : ℚ := scaleOf (minMaxOf xs).1 (minMaxOf xs).2

/-- Spec wording: saturate `v` to the closed interval `[lo, hi]`. -/
def clamp (v lo hi : ℚ) : ℚ := max lo (min v hi)

/-- Spec wording: nearest integer, a tie going to the neighbour farther from
zero. -/
def roundHalfAwayFromZero (r : ℚ) : Int :=
  if 0 ≤ r then ⌊r + 1 / 2⌋ else ⌈r - 1 / 2⌉

/-- Spec wording: `scale = 1` for a zero range, `range / 255` otherwise. -/
def specScale (mn mx : ℚ) : ℚ := if mx - mn = 0 then 1 else (mx - mn) / 255

/-- The tensor holds F32 storage with contents `xs`, of `size` cells. -/
def Tensor.IsF32 (t : Tensor) (xs : List ℚ) : Prop :=
  t.dtype = .DTYPE_FLOAT32 ∧ t.data = some (.f32 xs) ∧ t.size = (xs.length : Int)

/-- The tensor holds I8 storage with contents `ys`, of `size` cells. -/
def Tensor.IsI8 (t : Tensor) (ys : List Int) : Prop :=
  t.dtype = .DTYPE_INT8 ∧ t.data = some (.i8 ys) ∧ t.size = (ys.length : Int)

/-- An F32 tensor of shape `[n]` over the given cells. -/
def f32Tensor (xs : List ℚ) : Tensor :=
  { shape := some [(xs.length : Int)], ndim := 1, size := (xs.length : Int),
    dtype := .DTYPE_FLOAT32, data := some (.f32 xs) }

/-- An I8 tensor of shape `[n]` over the given cells. -/
def i8Tensor (ys : List Int) : Tensor :=
  { shape := some [(ys.length : Int)], ndim := 1, size := (ys.length : Int),
    dtype := .DTYPE_INT8, data := some (.i8 ys) }

/-- An allocator that grants every request and hands out zeroed cells. -/
def allocAll : Allocator :=
  { grant := fun _ _ => true, junkInt := fun _ => 0, junkF32 := fun _ => 0 }

/-- The running `size` of the shape loop, as a recursion over the extents
still to be visited. -/
def sizeFold : List Int → Int → Int
  | [], size => size
  | e :: es, size => sizeFold es (wrapInt (size * e))

/-- An allocator that grants the record and the shape buffer and refuses the
element storage (the third request of a call). -/
def allocNoData : Allocator :=
  { grant := fun k _ => k != 2, junkInt := fun _ => 0, junkF32 := fun _ => 0 }

/-- An allocator that grants the record and the element storage and refuses
the shape buffer (the second request of a call). -/
def allocNoShape : Allocator :=
  { grant := fun k _ => k != 1, junkInt := fun _ => 0, junkF32 := fun _ => 0 }

/-- An allocator that refuses the record (the first request of a call). -/
def allocNoRecord : Allocator :=
  { grant := fun k _ => k != 0, junkInt := fun _ => 0, junkF32 := fun _ => 0 }

/-! ## Binary32 evaluation of the quantizer

`max_val - min_val`, `range / 255.0f` and `input[i] / scale` are `float`
operations: each result is the exact result rounded to binary32 (round to
nearest, ties to even), with overflow to an infinity and gradual underflow.
The definitions of this section compute them so.  Cells of an F32 buffer are
finite values and are held exactly.  The sign of a zero is not represented:
it changes no comparison and no code, and the only zero divisor the code can
form is the `+0` that a positive `range / 255.0f` underflows to. -/

namespace B32

/-- A `float` value: NaN, an infinity (`neg` set for the negative one) or a
finite number. -/
inductive F32 where
  | nan
  | inf (neg : Bool)
  | fin (v : ℚ)
  deriving DecidableEq

/-- The largest finite binary32 value, `(2^24 - 1) * 2^104`. -/
def FLT_MAX : ℚ := 340282346638528859811704183484516925440

/-- Nearest integer, a tie going to the even neighbour. -/
def roundEven (r : ℚ) : Int :=
  if r - ⌊r⌋ < 1 / 2 then ⌊r⌋
  else if 1 / 2 < r - ⌊r⌋ then ⌊r⌋ + 1
  else if ⌊r⌋ % 2 = 0 then ⌊r⌋ else ⌊r⌋ + 1

/-- Exponent of the spacing of binary32 values around `x`: 23 below the
binary exponent of `x`, and `-149` throughout the subnormal range. -/
def quantumExp (x : ℚ) : Int := max (Int.log 2 |x| - 23) (-149)

/-- The multiple of the spacing nearest to `x` (ties to even). -/
def flVal (x : ℚ) : ℚ := (roundEven (x / 2 ^ quantumExp x) : ℚ) * 2 ^ quantumExp x

/-- Rounding of an exact result to binary32. -/
def fl (x : ℚ) : F32 :=
  if FLT_MAX < |flVal x| then .inf (decide (x < 0)) else .fin (flVal x)

/-- The `float` quotient `a / b`. -/
def F32.div : F32 → F32 → F32
  | .nan, _ => .nan
  | _, .nan => .nan
  | .inf _, .inf _ => .nan
  | .inf s, .fin v => .inf (xor s (decide (v < 0)))
  | .fin _, .inf _ => .fin 0
  | .fin a, .fin b =>
    if b = 0 then (if a = 0 then .nan else .inf (decide (a < 0))) else fl (a / b)

/-- The comparison `a < b` of two `float` values; false when either is NaN. -/
def F32.lt : F32 → F32 → Bool
  | .nan, _ => false
  | _, .nan => false
  | .inf true, .inf true => false
  | .inf true, _ => true
  | _, .inf true => false
  | .inf false, _ => false
  | .fin _, .inf false => true
  | .fin a, .fin b => decide (a < b)

/-- The comparison `a == b` of two `float` values; false when either is NaN. -/
def F32.eq : F32 → F32 → Bool
  | .nan, _ => false
  | _, .nan => false
  | a, b => decide (a = b)

/-- Lines 91-92 in binary32: `range = max_val - min_val`,
`scale = (range == 0) ? 1.0f : range / 255.0f`. -/
def scaleOf (min_val max_val : ℚ) : F32 :=
  let range := fl (max_val - min_val)
  if F32.eq range (.fin 0) then .fin 1 else F32.div range (.fin 255)

/-- The clipping of lines 100-101 on a `float`. -/
def clip (scaled : F32) : F32 :=
  let s1 := if F32.lt (.fin 127) scaled then .fin 127 else scaled
  if F32.lt s1 (.fin (-128)) then .fin (-128) else s1

/-- The C library function `round` on the promoted `double`: NaN and the
infinities are returned as they are. -/
def round : F32 → F32
  | .fin v => .fin (TinyTensor.round v)
  | v => v

/-- The conversion `(int8_t)v`: the fraction is discarded; the conversion is
undefined (`none`) for NaN, an infinity, or a value outside `[-128, 127]`. -/
def castInt8 : F32 → Option Int
  | .fin v =>
    if -128 ≤ (if 0 ≤ v then ⌊v⌋ else -⌊-v⌋) ∧ (if 0 ≤ v then ⌊v⌋ else -⌊-v⌋) ≤ 127 then
      some (if 0 ≤ v then ⌊v⌋ else -⌊-v⌋)
    else none
  | _ => none

/-- The body of the encoding loop, lines 98-102, for one cell `v`. -/
def encode (scale : F32) (v : ℚ) : Option Int :=
  castInt8 (round (clip (F32.div (.fin v) scale)))

/-- The encoding loop of lines 97-103 with `k` iterations left, at index `i`,
writing into `out`. -/
def encodeLoop (buf : List ℚ) (scale : F32) : Nat → Nat → List Int → Option (List Int)
  | 0, _, out => some out
  | k + 1, i, out =>
    match buf[i]? with
    | none => none
    | some v =>
      if i < out.length then
        match encode scale v with
        | none => none
        | some c => encodeLoop buf scale k (i + 1) (out.set i c)
      else none

/-- One line written by `printf` inside `quantize_tensor`. -/
inductive Diag where
  | typeMismatch
  | banner
  | params (min_val max_val : ℚ) (scale : F32)
  deriving DecidableEq

/-- What a call of `quantize_tensor` leaves behind: both tensors and the
lines printed. -/
structure QResult where
  input : Tensor
  output : Tensor
  diag : List Diag
  deriving DecidableEq

/-- The function `quantize_tensor`, with lines 91-98 computed in binary32. -/
def quantize_tensor (input output : Tensor) : Option QResult :=
  if input.dtype ≠ .DTYPE_FLOAT32 ∨ output.dtype ≠ .DTYPE_INT8 then
    some { input := input, output := output, diag := [.typeMismatch] }
  else
    match input.data with
    | some (.f32 buf) =>
      match buf[0]? with
      | none => none
      | some v0 =>
        match scanMinMax buf (input.size - 1).toNat 1 v0 v0 with
        | none => none
        | some (min_val, max_val) =>
          let scale := scaleOf min_val max_val
          let diag := [Diag.banner, Diag.params min_val max_val scale]
          if input.size.toNat = 0 then
            some { input := input, output := output, diag := diag }
          else
            match output.data with
            | some (.i8 out) =>
              (encodeLoop buf scale input.size.toNat 0 out).map fun out1 =>
                { input := input, output := { output with data := some (.i8 out1) },
                  diag := diag }
            | _ => none
    | _ => none

/-- The `scale` the binary32 quantizer derives from contents `xs`. -/
def quantScale (xs : List ℚ) : F32 := scaleOf (minMaxOf xs).1 (minMaxOf xs).2

/-- The code of one cell, with 0 standing in where the conversion is
undefined. -/
def codeOf (scale : F32) (v : ℚ) : Int := (encode scale v).getD 0

/-- The clamp of a binary32 quotient to `[-128, 127]`, an infinity going to
the endpoint on its side; a NaN has none. -/
def clampExt : F32 → Option ℚ
  | .nan => none
  | .inf false => some 127
  | .inf true => some (-128)
  | .fin q => some (clamp q (-128) 127)

end B32

/-- Spec wording: `mn` and `mx` are the minimum and the maximum of the cells
`xs`: each is a cell, and every cell lies between them. -/
def IsMinMax (xs : List ℚ) (mn mx : ℚ) : Prop :=
  mn ∈ xs ∧ (∀ a ∈ xs, mn ≤ a) ∧ mx ∈ xs ∧ (∀ a ∈ xs, a ≤ mx)

namespace B32

/-- The value a call `quantize_tensor(input, output)` hands back to its
caller.  The function is declared `void` (line 76) and both of its exits
return nothing, so a call that returns hands back the unit value whatever
path it took; `none` when the call is undefined. -/
def returnValue (input output : Tensor) : Option Unit :=
  (quantize_tensor input output).map fun _ => ()

end B32

/-! ## The loops -/

theorem scanMinMax_eq_scanList (buf : List ℚ) :
    ∀ (k i : Nat) (mn mx : ℚ), i + k ≤ buf.length →
      scanMinMax buf k i mn mx = some (scanList ((buf.drop i).take k) mn mx) := by
  intro k
  induction k with
  | zero => intro i mn mx _; simp [scanMinMax, scanList]
  | succ k ih =>
    intro i mn mx h
    have hi : i < buf.length := by omega
    have hd : buf.drop i = buf[i] :: buf.drop (i + 1) := List.drop_eq_getElem_cons hi
    rw [scanMinMax, List.getElem?_eq_getElem hi]
    simp only []
    rw [ih (i + 1) _ _ (by omega), hd, List.take_succ_cons, scanList]

theorem scanMinMax_oob (buf : List ℚ) :
    ∀ (k i : Nat) (mn mx : ℚ), buf.length < i + k → i ≤ buf.length →
      scanMinMax buf k i mn mx = none := by
  intro k
  induction k with
  | zero => intro i mn mx h1 h2; omega
  | succ k ih =>
    intro i mn mx h1 h2
    rw [scanMinMax]
    by_cases hi : i < buf.length
    · rw [List.getElem?_eq_getElem hi]
      exact ih (i + 1) _ _ (by omega) (by omega)
    · rw [List.getElem?_eq_none (by omega)]

theorem encodeLoop_eq (buf : List ℚ) (scale : ℚ) :
    ∀ (k i : Nat) (out : List Int), i + k ≤ buf.length → i + k ≤ out.length →
      encodeLoop buf scale k i out =
        some (out.take i ++ ((buf.drop i).take k).map (encode scale) ++ out.drop (i + k)) := by
  intro k
  induction k with
  | zero => intro i out _ _; simp [encodeLoop]
  | succ k ih =>
    intro i out hb ho
    have hi : i < buf.length := by omega
    have hj : i < out.length := by omega
    have hd : buf.drop i = buf[i] :: buf.drop (i + 1) := List.drop_eq_getElem_cons hi
    rw [encodeLoop, List.getElem?_eq_getElem hi]
    simp only [hj, if_true]
    rw [ih (i + 1) _ (by omega) (by simpa using (by omega : i + 1 + k ≤ out.length)), hd,
      List.take_succ_cons, List.map_cons]
    congr 1
    rw [List.set_eq_take_append_cons_drop, if_pos hj]
    have h1 : (List.take i out ++ encode scale buf[i] :: List.drop (i + 1) out).take (i + 1)
        = List.take i out ++ [encode scale buf[i]] := by
      rw [List.take_append_eq_append_take]
      simp [List.length_take, Nat.min_eq_left (Nat.le_of_lt hj)]
    have h2 : (List.take i out ++ encode scale buf[i] :: List.drop (i + 1) out).drop (i + 1 + k)
        = List.drop (i + (k + 1)) out := by
      rw [List.drop_append_eq_append_drop]
      simp [List.length_take, Nat.min_eq_left (Nat.le_of_lt hj)]
      have : i + 1 + k - i = k + 1 := by omega
      rw [List.drop_eq_nil_of_le (by simp; omega), this]
      simp [List.drop_drop]
      congr 1; omega
    rw [h1, h2]
    simp

theorem wrapInt8_of_range (n : Int) (h1 : -128 ≤ n) (h2 : n ≤ 127) : wrapInt8 n = n := by
  unfold wrapInt8; omega

theorem round_eq_cast (r : ℚ) : round r = ((roundHalfAwayFromZero r : Int) : ℚ) := by
  unfold round roundHalfAwayFromZero
  by_cases h : 0 ≤ r
  · simp [h]
  · simp only [h, if_false]
    have : ⌈r - 1 / 2⌉ = -⌊-r + 1 / 2⌋ := by
      rw [← Int.ceil_neg]; congr 1; ring
    rw [this]; push_cast; ring

theorem castInt8_intCast (n : Int) : castInt8 (n : ℚ) = wrapInt8 n := by
  unfold castInt8
  by_cases h : (0 : ℚ) ≤ (n : ℚ)
  · simp [h]
  · simp only [h, if_false]
    have : (-(n : ℚ)) = ((-n : Int) : ℚ) := by push_cast; ring
    rw [this, Int.floor_intCast]; simp

theorem clip_eq_clamp (s : ℚ) : clip s = clamp s (-128) 127 := by
  unfold clip clamp
  by_cases h1 : s > 127
  · have h1b : (127 : ℚ) ≤ s := le_of_lt h1
    simp [h1, min_eq_right h1b]
    norm_num
  · have h1b : s ≤ 127 := not_lt.mp h1
    simp only [h1, if_false, min_eq_left h1b]
    by_cases h2 : s < -128
    · simp [h2, max_eq_left (le_of_lt h2)]
    · simp [h2, max_eq_right (not_lt.mp h2)]

theorem clip_lower (s : ℚ) : -128 ≤ clip s := by
  rw [clip_eq_clamp]; exact le_max_left _ _

theorem clip_upper (s : ℚ) : clip s ≤ 127 := by
  rw [clip_eq_clamp]; exact max_le (by norm_num) (min_le_right _ _)

theorem roundHalfAwayFromZero_mono {a b : ℚ} (h : a ≤ b) :
    roundHalfAwayFromZero a ≤ roundHalfAwayFromZero b := by
  unfold roundHalfAwayFromZero
  by_cases ha : 0 ≤ a
  · have hb : 0 ≤ b := le_trans ha h
    simp only [ha, hb, if_true]
    exact Int.floor_mono (by linarith)
  · by_cases hb : 0 ≤ b
    · simp only [ha, hb, if_true, if_false]
      have h1 : ⌈a - 1 / 2⌉ ≤ 0 := by
        rw [Int.ceil_le]; push_cast; linarith [not_le.mp ha]
      have h2 : (0 : Int) ≤ ⌊b + 1 / 2⌋ := by
        rw [Int.le_floor]; push_cast; linarith
      omega
    · simp only [ha, hb, if_false]
      exact Int.ceil_mono (by linarith)

theorem roundHalfAwayFromZero_intCast (n : Int) : roundHalfAwayFromZero (n : ℚ) = n := by
  unfold roundHalfAwayFromZero
  by_cases h : (0 : ℚ) ≤ (n : ℚ)
  · simp only [h, if_true]
    rw [Int.floor_eq_iff]; constructor <;> linarith
  · simp only [h, if_false]
    rw [Int.ceil_eq_iff]; constructor <;> linarith

/-- The rounded value is a nearest integer. -/
theorem roundHalfAwayFromZero_near (r : ℚ) :
    |((roundHalfAwayFromZero r : Int) : ℚ) - r| ≤ 1 / 2 := by
  unfold roundHalfAwayFromZero
  by_cases h : 0 ≤ r
  · simp only [h, if_true]
    have h1 := Int.floor_le (r + 1 / 2)
    have h2 := Int.lt_floor_add_one (r + 1 / 2)
    rw [abs_le]; constructor <;> linarith
  · simp only [h, if_false]
    have h1 := Int.le_ceil (r - 1 / 2)
    have h2 := Int.ceil_lt_add_one (r - 1 / 2)
    rw [abs_le]; constructor <;> linarith

/-- On a tie the rounded value is the neighbour farther from zero. -/
theorem roundHalfAwayFromZero_tie (r : ℚ)
    (h : |((roundHalfAwayFromZero r : Int) : ℚ) - r| = 1 / 2) :
    |r| < |((roundHalfAwayFromZero r : Int) : ℚ)| := by
  unfold roundHalfAwayFromZero at h ⊢
  by_cases h0 : 0 ≤ r
  · simp only [h0, if_true] at h ⊢
    have h2 := Int.lt_floor_add_one (r + 1 / 2)
    rcases abs_eq (by norm_num : (0 : ℚ) ≤ 1 / 2) |>.mp h with h3 | h3
    · rw [abs_of_nonneg h0, abs_of_nonneg (by linarith)]; linarith
    · exfalso; linarith
  · simp only [h0, if_false] at h ⊢
    have h2 := Int.ceil_lt_add_one (r - 1 / 2)
    have hr : r < 0 := not_le.mp h0
    rcases abs_eq (by norm_num : (0 : ℚ) ≤ 1 / 2) |>.mp h with h3 | h3
    · exfalso; linarith
    · rw [abs_of_neg hr, abs_of_neg (by linarith)]; linarith

theorem roundClip_range (s : ℚ) :
    -128 ≤ roundHalfAwayFromZero (clip s) ∧ roundHalfAwayFromZero (clip s) ≤ 127 := by
  constructor
  · have := roundHalfAwayFromZero_mono (clip_lower s)
    have h := roundHalfAwayFromZero_intCast (-128)
    push_cast at h; rw [h] at this; exact this
  · have := roundHalfAwayFromZero_mono (clip_upper s)
    have h := roundHalfAwayFromZero_intCast 127
    push_cast at h; rw [h] at this; exact this

theorem encode_eq (scale v : ℚ) :
    encode scale v = roundHalfAwayFromZero (clip (v / scale)) := by
  unfold encode
  rw [round_eq_cast, castInt8_intCast]
  exact wrapInt8_of_range _ (roundClip_range _).1 (roundClip_range _).2

/-! ## The scan computes the extrema -/

theorem scanList_spec : ∀ (vs : List ℚ) (mn mx : ℚ),
    ((scanList vs mn mx).1 = mn ∨ (scanList vs mn mx).1 ∈ vs) ∧
    (scanList vs mn mx).1 ≤ mn ∧ (∀ a ∈ vs, (scanList vs mn mx).1 ≤ a) ∧
    ((scanList vs mn mx).2 = mx ∨ (scanList vs mn mx).2 ∈ vs) ∧
    mx ≤ (scanList vs mn mx).2 ∧ (∀ a ∈ vs, a ≤ (scanList vs mn mx).2) := by
  intro vs
  induction vs with
  | nil => intro mn mx; simp [scanList]
  | cons v vs ih =>
    intro mn mx
    obtain ⟨a1, a2, a3, b1, b2, b3⟩ :=
      ih (if v < mn then v else mn) (if v > mx then v else mx)
    simp only [scanList]
    have hmn : (if v < mn then v else mn) ≤ mn ∧ (if v < mn then v else mn) ≤ v := by
      by_cases h : v < mn
      · simp only [h, if_true]; exact ⟨le_of_lt h, le_refl _⟩
      · simp only [h, if_false]; exact ⟨le_refl _, not_lt.mp h⟩
    have hmx : mx ≤ (if v > mx then v else mx) ∧ v ≤ (if v > mx then v else mx) := by
      by_cases h : v > mx
      · simp only [h, if_true]; exact ⟨le_of_lt h, le_refl _⟩
      · simp only [h, if_false]; exact ⟨le_refl _, not_lt.mp h⟩
    refine ⟨?_, le_trans a2 hmn.1, ?_, ?_, le_trans hmx.1 b2, ?_⟩
    · rcases a1 with h | h
      · rw [h]
        by_cases hv : v < mn
        · simp [hv]
        · simp [hv]
      · right; exact List.mem_cons_of_mem _ h
    · intro a ha
      rcases List.mem_cons.mp ha with h | h
      · rw [h]; exact le_trans a2 hmn.2
      · exact a3 a h
    · rcases b1 with h | h
      · rw [h]
        by_cases hv : v > mx
        · simp [hv]
        · simp [hv]
      · right; exact List.mem_cons_of_mem _ h
    · intro a ha
      rcases List.mem_cons.mp ha with h | h
      · rw [h]; exact le_trans hmx.2 b2
      · exact b3 a h

theorem minMaxOf_spec (xs : List ℚ) (hn : 1 ≤ xs.length) :
    (minMaxOf xs).1 ∈ xs ∧ (∀ a ∈ xs, (minMaxOf xs).1 ≤ a) ∧
    (minMaxOf xs).2 ∈ xs ∧ (∀ a ∈ xs, a ≤ (minMaxOf xs).2) := by
  cases xs with
  | nil => simp at hn
  | cons v0 vs =>
    obtain ⟨a1, a2, a3, b1, b2, b3⟩ := scanList_spec vs v0 v0
    simp only [minMaxOf]
    refine ⟨?_, ?_, ?_, ?_⟩
    · rcases a1 with h | h
      · rw [h]; exact List.mem_cons_self _ _
      · exact List.mem_cons_of_mem _ h
    · intro a ha
      rcases List.mem_cons.mp ha with h | h
      · rw [h]; exact a2
      · exact a3 a h
    · rcases b1 with h | h
      · rw [h]; exact List.mem_cons_self _ _
      · exact List.mem_cons_of_mem _ h
    · intro a ha
      rcases List.mem_cons.mp ha with h | h
      · rw [h]; exact b2
      · exact b3 a h

theorem quantize_tensor_eq (x y : Tensor) (xs : List ℚ) (ys : List Int)
    (hx : x.IsF32 xs) (hy : y.IsI8 ys) (hn : 1 ≤ xs.length) (hle : xs.length ≤ ys.length) :
    quantize_tensor x y = some
      { input := x
        output := { y with data := some (.i8 (xs.map (encode (quantScale xs)) ++
          ys.drop xs.length)) }
        diag := [.banner, .params (minMaxOf xs).1 (minMaxOf xs).2 (quantScale xs)] } := by
  obtain ⟨hx1, hx2, hx3⟩ := hx
  obtain ⟨hy1, hy2, _⟩ := hy
  cases xs with
  | nil => simp at hn
  | cons v0 vs =>
    have hsz : (x.size - 1).toNat = vs.length := by
      rw [hx3]; simp
    have hsz2 : x.size.toNat = vs.length + 1 := by
      rw [hx3]; simp
    have hscan : scanMinMax (v0 :: vs) vs.length 1 v0 v0 = some (scanList vs v0 v0) := by
      rw [scanMinMax_eq_scanList _ _ _ _ _ (by simp; omega)]
      simp
    have hloop := encodeLoop_eq (v0 :: vs) (quantScale (v0 :: vs)) (vs.length + 1) 0 ys
      (by simp) (by simpa using hle)
    unfold quantize_tensor
    rw [hx1, hy1, hx2, hy2]
    simp only [ne_eq, not_true_eq_false, or_self, if_false, List.getElem?_cons_zero, hsz, hscan,
      hsz2]
    simp only [Nat.add_one_ne_zero, if_false]
    have hq : scaleOf (scanList vs v0 v0).1 (scanList vs v0 v0).2 = quantScale (v0 :: vs) := rfl
    rw [hq, hloop]
    simp [minMaxOf]

theorem f32Tensor_isF32 (xs : List ℚ) : (f32Tensor xs).IsF32 xs := ⟨rfl, rfl, rfl⟩

theorem i8Tensor_isI8 (ys : List Int) : (i8Tensor ys).IsI8 ys := ⟨rfl, rfl, rfl⟩

theorem specScale_eq (xs : List ℚ) :
    specScale (minMaxOf xs).1 (minMaxOf xs).2 = quantScale xs := rfl

/-- On the path past the dtype guard the printed lines are the banner and the
parameter line, never the mismatch line. -/
theorem quantize_tensor_diag (x y : Tensor) (r : QResult)
    (hx : x.dtype = .DTYPE_FLOAT32) (hy : y.dtype = .DTYPE_INT8)
    (h : quantize_tensor x y = some r) :
    ∃ mn mx sc, r.diag = [.banner, .params mn mx sc] := by
  unfold quantize_tensor at h
  rw [hx, hy] at h
  simp only [ne_eq, not_true_eq_false, or_self, if_false] at h
  split at h
  · split at h
    · exact absurd h (by simp)
    · split at h
      · exact absurd h (by simp)
      · split at h
        · simp only [Option.some.injEq] at h
          rw [← h]; exact ⟨_, _, _, rfl⟩
        · split at h
          · simp only [Option.map_eq_some'] at h
            obtain ⟨o, _, ho⟩ := h
            rw [← ho]; exact ⟨_, _, _, rfl⟩
          · exact absurd h (by simp)
  · exact absurd h (by simp)

theorem roundClip_of_ge (s : ℚ) (h : 253 / 2 ≤ s) : roundHalfAwayFromZero (clip s) = 127 := by
  have h1 : 253 / 2 ≤ clip s := by
    rw [clip_eq_clamp]; unfold clamp
    exact le_max_of_le_right (le_min h (by norm_num))
  have h2 := clip_upper s
  unfold roundHalfAwayFromZero
  rw [if_pos (by linarith), Int.floor_eq_iff]
  constructor <;> push_cast <;> linarith

theorem roundClip_of_le (s : ℚ) (h : s ≤ -255 / 2) : roundHalfAwayFromZero (clip s) = -128 := by
  have h1 : clip s ≤ -255 / 2 := by
    rw [clip_eq_clamp]; unfold clamp
    exact max_le (by norm_num) (le_trans (min_le_left _ _) h)
  have h2 := clip_lower s
  unfold roundHalfAwayFromZero
  rw [if_neg (by linarith), Int.ceil_eq_iff]
  constructor <;> push_cast <;> linarith

theorem roundClip_eq_clampRound (s : ℚ) :
    roundHalfAwayFromZero (clip s) = max (-128) (min (roundHalfAwayFromZero s) 127) := by
  have e1 : roundHalfAwayFromZero (127 : ℚ) = 127 := by
    have := roundHalfAwayFromZero_intCast 127; push_cast at this; exact this
  have e2 : roundHalfAwayFromZero (-128 : ℚ) = -128 := by
    have := roundHalfAwayFromZero_intCast (-128); push_cast at this; exact this
  by_cases h1 : 127 < s
  · rw [roundClip_of_ge s (by linarith)]
    have := roundHalfAwayFromZero_mono (le_of_lt h1)
    rw [e1] at this
    omega
  · by_cases h2 : s < -128
    · rw [roundClip_of_le s (by linarith)]
      have := roundHalfAwayFromZero_mono (le_of_lt h2)
      rw [e2] at this
      omega
    · have hc : clip s = s := by
        unfold clip
        simp only [gt_iff_lt, h1, if_false, h2]
      have a1 := roundHalfAwayFromZero_mono (not_lt.mp h1)
      have a2 := roundHalfAwayFromZero_mono (not_lt.mp h2)
      rw [e1] at a1
      rw [e2] at a2
      rw [hc]
      omega

theorem minMaxOf_const (xs : List ℚ) (c : ℚ) (hn : 1 ≤ xs.length) (hc : ∀ a ∈ xs, a = c) :
    minMaxOf xs = (c, c) := by
  obtain ⟨h1, _, h3, _⟩ := minMaxOf_spec xs hn
  exact Prod.ext (hc _ h1) (hc _ h3)

theorem getElem?_written (xs : List ℚ) (ys : List Int) (sc : ℚ) (i : Nat) (hi : i < xs.length) :
    (xs.map (encode sc) ++ ys.drop xs.length)[i]? = some (encode sc xs[i]) := by
  rw [List.getElem?_append_left (by simpa using hi), List.getElem?_map,
    List.getElem?_eq_getElem hi]
  rfl

/-! ## `create_tensor` -/

theorem take_succ_set {α : Type} (l : List α) (i : Nat) (e : α) (h : i < l.length) :
    (l.set i e).take (i + 1) = l.take i ++ [e] := by
  rw [List.set_eq_take_append_cons_drop, if_pos h, List.take_append_eq_append_take]
  simp [List.length_take, Nat.min_eq_left (Nat.le_of_lt h)]

theorem drop_succ_set {α : Type} (l : List α) (i k : Nat) (e : α) :
    (l.set i e).drop (i + 1 + k) = l.drop (i + (k + 1)) := by
  rw [List.drop_set, if_pos (by omega)]
  congr 1; omega

theorem copyShape_eq (shape : List Int) :
    ∀ (k i : Nat) (dst : List Int) (size : Int), i + k ≤ shape.length → i + k ≤ dst.length →
      copyShape shape k i dst size =
        some (dst.take i ++ (shape.drop i).take k ++ dst.drop (i + k),
          sizeFold ((shape.drop i).take k) size) := by
  intro k
  induction k with
  | zero => intro i dst size _ _; simp [copyShape, sizeFold]
  | succ k ih =>
    intro i dst size hs hd
    have hi : i < shape.length := by omega
    have hj : i < dst.length := by omega
    have hdrop : shape.drop i = shape[i] :: shape.drop (i + 1) := List.drop_eq_getElem_cons hi
    rw [copyShape, List.getElem?_eq_getElem hi]
    simp only [hj, if_true]
    rw [ih (i + 1) _ _ (by omega) (by simp; omega), hdrop, List.take_succ_cons, sizeFold,
      take_succ_set _ _ _ hj, drop_succ_set]
    simp

theorem prod_pos_of_extents : ∀ (es : List Int), (∀ e ∈ es, 1 ≤ e) → 1 ≤ es.prod := by
  intro es
  induction es with
  | nil => intro _; simp
  | cons e es ih =>
    intro h
    have he : 1 ≤ e := h e (List.mem_cons_self _ _)
    have hp : 1 ≤ es.prod := ih fun a ha => h a (List.mem_cons_of_mem _ ha)
    rw [List.prod_cons]
    nlinarith

theorem wrapInt_of_range (z : Int) (h1 : -2147483648 ≤ z) (h2 : z ≤ 2147483647) :
    wrapInt z = z := by
  unfold wrapInt; omega

theorem sizeFold_eq_prod : ∀ (es : List Int) (size : Int), 1 ≤ size → (∀ e ∈ es, 1 ≤ e) →
    size * es.prod ≤ 2147483647 → sizeFold es size = size * es.prod := by
  intro es
  induction es with
  | nil => intro size _ _ _; simp [sizeFold]
  | cons e es ih =>
    intro size hs h hb
    have he : 1 ≤ e := h e (List.mem_cons_self _ _)
    have hp : 1 ≤ es.prod := prod_pos_of_extents es fun a ha => h a (List.mem_cons_of_mem _ ha)
    rw [List.prod_cons] at hb
    have hse : 1 ≤ size * e := by nlinarith
    have hle : size * e ≤ size * (e * es.prod) := by nlinarith
    rw [sizeFold, wrapInt_of_range _ (by omega) (by omega),
      ih (size * e) hse (fun a ha => h a (List.mem_cons_of_mem _ ha)) (by rw [mul_assoc]; exact hb),
      List.prod_cons, mul_assoc]

/-- The result of `create_tensor` in closed form when the record and the shape
buffer are granted and `ndim` is the number of extents passed. -/
theorem create_tensor_eq (a : Allocator) (shape : List Int) (dtype : DataType)
    (hlen : (shape.length : Int) ≤ 2147483647)
    (h0 : a.grant 0 sizeofTensor = true) (h1 : a.grant 1 (4 * shape.length) = true) :
    create_tensor a shape (shape.length : Int) dtype = some (some
      { shape := some shape
        ndim := (shape.length : Int)
        size := sizeFold shape 1
        dtype := dtype
        data :=
          if a.grant 2 (mulSizeT (toSizeT (sizeFold shape 1)) (elemWidth dtype)) then
            some (freshData a dtype
              (mulSizeT (toSizeT (sizeFold shape 1)) (elemWidth dtype) / elemWidth dtype))
          else none }) := by
  have hb : mulSizeT (toSizeT (shape.length : Int)) sizeofInt = 4 * shape.length := by
    unfold mulSizeT toSizeT sizeofInt
    omega
  have hfl : (freshInts a shape.length).length = shape.length := by simp [freshInts]
  have hcopy := copyShape_eq shape shape.length 0 (freshInts a shape.length) 1 (by simp)
    (by simp [hfl])
  unfold create_tensor
  simp only [h0, hb, h1, if_true, Bool.true_eq_false, if_false, Int.toNat_ofNat]
  have hdiv : 4 * shape.length / sizeofInt = shape.length := by
    unfold sizeofInt; omega
  rw [hdiv, hcopy]
  simp [hfl]

/-! ## Claims -/

/-- C2, as stated, fails: for the extents `{65536, 65536}` (all `≥ 1`) and a
granting allocator, the returned `size` is `0`, not the product `2^32`, and
is not `≥ 1`. -/
theorem C2_size_overflow_counterexample :
    (∀ e ∈ ([65536, 65536] : List Int), 1 ≤ e) ∧
    ∃ t, create_tensor allocAll [65536, 65536] 2 .DTYPE_INT8 = some (some t) ∧
      t.size = 0 ∧ t.size ≠ ([65536, 65536] : List Int).prod ∧ ¬ (1 ≤ t.size) := by
  refine ⟨by decide, _, create_tensor_eq allocAll [65536, 65536] .DTYPE_INT8 (by decide) rfl rfl,
    ?_, ?_, ?_⟩
  · decide
  · simp only [List.prod_cons, List.prod_nil]; decide
  · decide

/-- C2 (amended): for a non-empty shape with all extents `≥ 1` whose product
fits a 32-bit `int`, with `ndim` the number of extents and the record and
shape allocations granted, `create_tensor` returns a tensor whose `size` is
the product of the extents (`≥ 1`), whose `ndim` and `dtype` are the
arguments, and whose `shape` is a copy of the extents. -/
theorem C2_create_tensor_fields (a : Allocator) (shape : List Int) (dtype : DataType)
    (hne : shape ≠ []) (hext : ∀ e ∈ shape, 1 ≤ e) (hfit : shape.prod ≤ 2147483647)
    (hlen : (shape.length : Int) ≤ 2147483647)
    (h0 : a.grant 0 sizeofTensor = true) (h1 : a.grant 1 (4 * shape.length) = true) :
    ∃ t, create_tensor a shape (shape.length : Int) dtype = some (some t) ∧
      t.size = shape.prod ∧ 1 ≤ t.size ∧ t.ndim = (shape.length : Int) ∧ 1 ≤ t.ndim ∧
      t.dtype = dtype ∧ t.shape = some shape ∧
      ∀ (i : Nat) (hi : i < shape.length), t.shape.bind (fun s => s[i]?) = some shape[i] := by
  have hsz : sizeFold shape 1 = shape.prod := by
    rw [sizeFold_eq_prod shape 1 (le_refl _) hext (by simpa using hfit)]; simp
  have hpos : 0 < shape.length := List.length_pos.mpr hne
  refine ⟨_, create_tensor_eq a shape dtype hlen h0 h1, hsz, ?_, rfl, ?_, rfl, rfl, ?_⟩
  · show 1 ≤ sizeFold shape 1
    rw [hsz]; exact prod_pos_of_extents shape hext
  · show 1 ≤ (shape.length : Int)
    omega
  · intro i hi
    simp [List.getElem?_eq_getElem hi]

/-- C2 (amended) at the shape `{2, 3}` for F32 with a granting allocator. -/
theorem C2_create_tensor_fields_witness :
    ∃ t, create_tensor allocAll [2, 3] (([2, 3] : List Int).length : Int) .DTYPE_FLOAT32
        = some (some t) ∧
      t.size = ([2, 3] : List Int).prod ∧ 1 ≤ t.size ∧
      t.ndim = (([2, 3] : List Int).length : Int) ∧ 1 ≤ t.ndim ∧
      t.dtype = .DTYPE_FLOAT32 ∧ t.shape = some [2, 3] ∧
      ∀ (i : Nat) (hi : i < ([2, 3] : List Int).length),
        t.shape.bind (fun s => s[i]?) = some ([2, 3] : List Int)[i] :=
  C2_create_tensor_fields allocAll [2, 3] .DTYPE_FLOAT32 (by decide) (by decide)
    (by simp) (by decide) rfl rfl

/-- C8: constant-tensor law.  If every input cell equals `c`, the quantizer
reports `min = max = c` and `scale = 1`, and every code is
`clamp (roundHalfAwayFromZero c)` to `[-128, 127]` (round first, then clamp);
`{3, 3, 3}` yields `{3, 3, 3}` and `{1/2}` yields `{1}`. -/
theorem C8_constant_tensor_law :
    (∀ (x y : Tensor) (xs : List ℚ) (ys : List Int) (c : ℚ),
      x.IsF32 xs → y.IsI8 ys → 1 ≤ xs.length → xs.length ≤ ys.length → (∀ a ∈ xs, a = c) →
      ∃ r out, quantize_tensor x y = some r ∧ r.diag = [.banner, .params c c 1] ∧
        r.output.data = some (.i8 out) ∧
        ∀ (i : Nat), i < xs.length →
          out[i]? = some (max (-128) (min (roundHalfAwayFromZero c) 127))) ∧
    (∀ a b c : Int, ∃ r, quantize_tensor (f32Tensor [3, 3, 3]) (i8Tensor [a, b, c]) = some r ∧
      r.diag = [.banner, .params 3 3 1] ∧ r.output.data = some (.i8 [3, 3, 3])) ∧
    (∀ a : Int, ∃ r, quantize_tensor (f32Tensor [1 / 2]) (i8Tensor [a]) = some r ∧
      r.diag = [.banner, .params (1 / 2) (1 / 2) 1] ∧ r.output.data = some (.i8 [1])) := by
  refine ⟨?_, ?_, ?_⟩
  · intro x y xs ys c hx hy hn hle hc
    have hmm := minMaxOf_const xs c hn hc
    have hq : quantScale xs = 1 := by
      unfold quantScale scaleOf
      rw [hmm]; simp
    refine ⟨_, _, quantize_tensor_eq x y xs ys hx hy hn hle, ?_, rfl, ?_⟩
    · rw [hq, hmm]
    · intro i hi
      rw [getElem?_written xs ys _ i hi, hq, encode_eq, hc _ (List.getElem_mem hi), div_one,
        roundClip_eq_clampRound]
  · intro a b c
    have hq : quantScale [3, 3, 3] = 1 := by
      norm_num [quantScale, minMaxOf, scanList, scaleOf]
    have hm : minMaxOf [3, 3, 3] = (3, 3) := by norm_num [minMaxOf, scanList]
    have hdata : List.map (encode (quantScale [3, 3, 3])) [3, 3, 3] = [3, 3, 3] := by
      rw [hq]
      simp only [List.map, encode_eq]
      norm_num [roundHalfAwayFromZero, clip, Int.ceil_eq_iff, Int.floor_eq_iff]
    refine ⟨_, quantize_tensor_eq _ _ [3, 3, 3] [a, b, c] (f32Tensor_isF32 _) (i8Tensor_isI8 _)
      (by decide) (le_refl 3), ?_, ?_⟩
    · rw [hq, hm]
    · show some (Buffer.i8 (List.map (encode (quantScale [3, 3, 3])) [3, 3, 3] ++
        List.drop ([3, 3, 3] : List ℚ).length [a, b, c])) = _
      rw [hdata]
      rfl
  · intro a
    have hq : quantScale [1 / 2] = 1 := by
      norm_num [quantScale, minMaxOf, scanList, scaleOf]
    have hm : minMaxOf [1 / 2] = (1 / 2, 1 / 2) := by norm_num [minMaxOf, scanList]
    have hdata : List.map (encode (quantScale [1 / 2])) [1 / 2] = [1] := by
      rw [hq]
      simp only [List.map, encode_eq]
      norm_num [roundHalfAwayFromZero, clip, Int.ceil_eq_iff, Int.floor_eq_iff]
    refine ⟨_, quantize_tensor_eq _ _ [1 / 2] [a] (f32Tensor_isF32 _) (i8Tensor_isI8 _)
      (by decide) (le_refl 1), ?_, ?_⟩
    · rw [hq, hm]
    · show some (Buffer.i8 (List.map (encode (quantScale [1 / 2])) [1 / 2] ++
        List.drop ([1 / 2] : List ℚ).length [a])) = _
      rw [hdata]
      rfl

/-- C8 at the constant input `{200, 200}`, whose code saturates at 127. -/
theorem C8_constant_tensor_law_witness :
    ∃ r out, quantize_tensor (f32Tensor [200, 200]) (i8Tensor [0, 0]) = some r ∧
      r.diag = [.banner, .params 200 200 1] ∧ r.output.data = some (.i8 out) ∧
      ∀ (i : Nat), i < [(200 : ℚ), 200].length →
        out[i]? = some (max (-128) (min (roundHalfAwayFromZero 200) 127)) :=
  C8_constant_tensor_law.1 (f32Tensor [200, 200]) (i8Tensor [0, 0]) [200, 200] [0, 0] 200
    (f32Tensor_isF32 _) (i8Tensor_isI8 _) (by decide) (by decide)
    (by
      intro a ha
      simp only [List.mem_cons, List.mem_singleton, List.not_mem_nil, or_false, or_self] at ha
      exact ha)

/-- C9: range discovery.  On an F32 input of at least one cell the scan returns
`(min_val, max_val)`, the call reports this pair, each of the two is a cell
of the input, and every cell lies between them. -/
theorem C9_range_discovery (x y : Tensor) (xs : List ℚ) (ys : List Int)
    (hx : x.IsF32 xs) (hy : y.IsI8 ys) (hn : 1 ≤ xs.length) (hle : xs.length ≤ ys.length) :
    ∃ v0 mn mx sc r, xs[0]? = some v0 ∧
      scanMinMax xs (x.size - 1).toNat 1 v0 v0 = some (mn, mx) ∧
      quantize_tensor x y = some r ∧ r.diag = [.banner, .params mn mx sc] ∧
      mn ∈ xs ∧ mx ∈ xs ∧ ∀ (i : Nat) (hi : i < xs.length), mn ≤ xs[i] ∧ xs[i] ≤ mx := by
  obtain ⟨h1, h2, h3, h4⟩ := minMaxOf_spec xs hn
  have hq := quantize_tensor_eq x y xs ys hx hy hn hle
  obtain ⟨_, _, hx3⟩ := hx
  cases xs with
  | nil => simp at hn
  | cons v0 vs =>
    refine ⟨v0, _, _, _, _, List.getElem?_cons_zero, ?_, hq, rfl, h1, h3, ?_⟩
    · have hsz : (x.size - 1).toNat = vs.length := by
        rw [hx3]; simp
      rw [hsz, scanMinMax_eq_scanList _ _ _ _ _ (by simp; omega)]
      simp [minMaxOf]
    · intro i hi
      exact ⟨h2 _ (List.getElem_mem hi), h4 _ (List.getElem_mem hi)⟩

/-- C9 at the input `{2, -1, 5}`. -/
theorem C9_range_discovery_witness :
    ∃ v0 mn mx sc r, [(2 : ℚ), -1, 5][0]? = some v0 ∧
      scanMinMax [2, -1, 5] ((f32Tensor [2, -1, 5]).size - 1).toNat 1 v0 v0 = some (mn, mx) ∧
      quantize_tensor (f32Tensor [2, -1, 5]) (i8Tensor [0, 0, 0]) = some r ∧
      r.diag = [.banner, .params mn mx sc] ∧
      mn ∈ [(2 : ℚ), -1, 5] ∧ mx ∈ [(2 : ℚ), -1, 5] ∧
      ∀ (i : Nat) (hi : i < [(2 : ℚ), -1, 5].length),
        mn ≤ [(2 : ℚ), -1, 5][i] ∧ [(2 : ℚ), -1, 5][i] ≤ mx :=
  C9_range_discovery (f32Tensor [2, -1, 5]) (i8Tensor [0, 0, 0]) [2, -1, 5] [0, 0, 0]
    (f32Tensor_isF32 _) (i8Tensor_isI8 _) (by decide) (by decide)

/-- C13: evaluation of `create_tensor` on shape `{1, 6}`, F32, under each single
allocation failure.  A refused record gives `NULL`; a refused element storage
still returns a tensor, with `data = NULL`; a refused shape buffer makes the
copy loop store through `NULL`. -/
theorem C13_alloc_failure_paths :
    create_tensor allocNoRecord [1, 6] 2 .DTYPE_FLOAT32 = some none ∧
    create_tensor allocNoData [1, 6] 2 .DTYPE_FLOAT32 = some (some
      { shape := some [1, 6], ndim := 2, size := 6, dtype := .DTYPE_FLOAT32, data := none }) ∧
    create_tensor allocNoShape [1, 6] 2 .DTYPE_FLOAT32 = none := by
  refine ⟨?_, ?_, ?_⟩
  · rfl
  · have h := create_tensor_eq allocNoData [1, 6] .DTYPE_FLOAT32 (by decide) rfl rfl
    have hsz : sizeFold [1, 6] 1 = 6 := by decide
    rw [hsz] at h
    exact h
  · rfl

/-- The scan faults exactly when it still has a cell to visit beyond the
buffer. -/
theorem scanMinMax_eq_none_iff (buf : List ℚ) :
    ∀ (k i : Nat) (mn mx : ℚ),
      scanMinMax buf k i mn mx = none ↔ 0 < k ∧ buf.length < i + k := by
  intro k
  induction k with
  | zero => intro i mn mx; simp [scanMinMax]
  | succ k ih =>
    intro i mn mx
    rw [scanMinMax]
    by_cases hi : i < buf.length
    · rw [List.getElem?_eq_getElem hi]
      simp only []
      rw [ih]
      constructor
      · rintro ⟨_, h⟩; exact ⟨Nat.succ_pos _, by omega⟩
      · rintro ⟨_, h⟩; exact ⟨by omega, by omega⟩
    · rw [List.getElem?_eq_none (by omega)]
      simp only [true_iff]
      exact ⟨Nat.succ_pos _, by omega⟩

/-- The encoding loop faults exactly when it still has a cell to visit beyond
the input buffer or beyond the output buffer. -/
theorem encodeLoop_eq_none_iff (buf : List ℚ) (scale : ℚ) :
    ∀ (k i : Nat) (out : List Int),
      encodeLoop buf scale k i out = none ↔
        0 < k ∧ (buf.length < i + k ∨ out.length < i + k) := by
  intro k
  induction k with
  | zero => intro i out; simp [encodeLoop]
  | succ k ih =>
    intro i out
    rw [encodeLoop]
    by_cases hi : i < buf.length
    · rw [List.getElem?_eq_getElem hi]
      by_cases hj : i < out.length
      · simp only [hj, if_true]
        rw [ih, List.length_set]
        constructor
        · rintro ⟨_, h⟩; exact ⟨Nat.succ_pos _, by omega⟩
        · rintro ⟨_, h⟩; exact ⟨by omega, by omega⟩
      · simp only [hj, if_false, true_iff]
        exact ⟨Nat.succ_pos _, Or.inr (by omega)⟩
    · rw [List.getElem?_eq_none (by omega)]
      simp only [true_iff]
      exact ⟨Nat.succ_pos _, Or.inl (by omega)⟩

/-- C16, as stated, fails: with `ndim = 0` and a granting allocator
`create_tensor` returns a tensor, of `size` 1, not `NULL`. -/
theorem C16_empty_shape_counterexample :
    ∃ t, create_tensor allocAll [] 0 .DTYPE_INT8 = some (some t) ∧ t.size = 1 ∧ t.ndim = 0 ∧
      create_tensor allocAll [] 0 .DTYPE_INT8 ≠ some none := by
  have h := create_tensor_eq allocAll [] .DTYPE_INT8 (by decide) rfl rfl
  refine ⟨_, h, rfl, rfl, ?_⟩
  intro hc
  have h2 := h.symm.trans hc
  simp at h2

/-- C16 (amended): `create_tensor` does not reject an empty shape.  For
`ndim = 0`, whenever the record allocation is granted, it returns a tensor
with `ndim = 0`, `size = 1` and the requested `dtype`. -/
theorem C16_empty_shape_accepted (a : Allocator) (shape : List Int) (dtype : DataType)
    (h0 : a.grant 0 sizeofTensor = true) :
    ∃ t, create_tensor a shape 0 dtype = some (some t) ∧ t.ndim = 0 ∧ t.size = 1 ∧
      t.dtype = dtype := by
  unfold create_tensor
  simp only [h0, Bool.true_eq_false, if_false, Int.toNat_zero, copyShape]
  by_cases h1 : a.grant 1 (mulSizeT (toSizeT 0) sizeofInt) = true
  · simp only [h1, if_true, Option.map_some']
    exact ⟨_, rfl, rfl, rfl, rfl⟩
  · simp only [h1, if_false]
    exact ⟨_, rfl, rfl, rfl, rfl⟩

/-- C16 (amended) with the allocator that grants every request. -/
theorem C16_empty_shape_accepted_witness :
    ∃ t, create_tensor allocAll [] 0 .DTYPE_FLOAT32 = some (some t) ∧ t.ndim = 0 ∧ t.size = 1 ∧
      t.dtype = .DTYPE_FLOAT32 :=
  C16_empty_shape_accepted allocAll [] .DTYPE_FLOAT32 rfl

theorem clip_mono {a b : ℚ} (h : a ≤ b) : clip a ≤ clip b := by
  rw [clip_eq_clamp, clip_eq_clamp]
  unfold clamp
  exact max_le_max (le_refl _) (min_le_min h (le_refl _))

namespace B32

theorem roundEven_eq_of_lt (r : ℚ) (n : Int) (h1 : (n : ℚ) - 1 / 2 < r) (h2 : r < n + 1 / 2) :
    roundEven r = n := by
  unfold roundEven
  by_cases hf : ⌊r⌋ = n
  · have h3 := Int.floor_le r
    rw [hf] at h3 ⊢
    rw [if_pos (by linarith)]
  · have h3 := Int.floor_le r
    have h4 := Int.lt_floor_add_one r
    have h5 : ⌊r⌋ = n - 1 := by
      have a1 : n - 1 ≤ ⌊r⌋ := by
        rw [Int.le_floor]; push_cast; linarith
      have a2 : ⌊r⌋ < n + 1 := by
        rw [Int.floor_lt]; push_cast; linarith
      omega
    rw [h5]
    push_cast
    rw [if_neg (by linarith), if_pos (by linarith)]
    ring

theorem roundEven_intCast (n : Int) : roundEven (n : ℚ) = n :=
  roundEven_eq_of_lt _ n (by linarith) (by linarith)

/-- The rounded value is a nearest integer. -/
theorem roundEven_near (r : ℚ) : |((roundEven r : Int) : ℚ) - r| ≤ 1 / 2 := by
  have h3 := Int.floor_le r
  have h4 := Int.lt_floor_add_one r
  unfold roundEven
  by_cases c1 : r - ⌊r⌋ < 1 / 2
  · rw [if_pos c1, abs_le]; constructor <;> linarith
  · rw [if_neg c1]
    by_cases c2 : 1 / 2 < r - ⌊r⌋
    · rw [if_pos c2, abs_le]; push_cast; constructor <;> linarith
    · rw [if_neg c2]
      have c3 : r - ⌊r⌋ = 1 / 2 := le_antisymm (not_lt.mp c2) (not_lt.mp c1)
      by_cases c4 : ⌊r⌋ % 2 = 0
      · rw [if_pos c4, abs_le]; constructor <;> linarith
      · rw [if_neg c4, abs_le]; push_cast; constructor <;> linarith

theorem roundEven_nonneg (r : ℚ) (h : 0 ≤ r) : 0 ≤ roundEven r := by
  have h0 : (0 : Int) ≤ ⌊r⌋ := Int.floor_nonneg.mpr h
  unfold roundEven
  split_ifs <;> omega

theorem roundEven_nonpos (r : ℚ) (h : r ≤ 0) : roundEven r ≤ 0 := by
  have h3 := Int.floor_le r
  have h4 := Int.lt_floor_add_one r
  unfold roundEven
  by_cases h0 : r = 0
  · subst h0; simp
  · have hneg : r < 0 := lt_of_le_of_ne h h0
    have hf : ⌊r⌋ ≤ -1 := by
      have : ⌊r⌋ < 0 := by rw [Int.floor_lt]; exact_mod_cast hneg
      omega
    split_ifs <;> omega

theorem log_eq_of_bounds (x : ℚ) (e : Int) (h0 : 0 < x) (h1 : (2 : ℚ) ^ e ≤ x)
    (h2 : x < (2 : ℚ) ^ (e + 1)) : Int.log 2 x = e := by
  have a1 : e ≤ Int.log 2 x := by
    rw [← Int.zpow_le_iff_le_log (by norm_num) h0]; exact_mod_cast h1
  have a2 : Int.log 2 x < e + 1 := by
    rw [← Int.lt_zpow_iff_log_lt (by norm_num) h0]; exact_mod_cast h2
  omega

theorem flVal_eq_of (x : ℚ) (e n k : Int) (hx : x ≠ 0) (h1 : (2 : ℚ) ^ e ≤ |x|)
    (h2 : |x| < (2 : ℚ) ^ (e + 1)) (hk : k = max (e - 23) (-149))
    (h3 : (n : ℚ) - 1 / 2 < x / 2 ^ k) (h4 : x / 2 ^ k < n + 1 / 2) :
    flVal x = (n : ℚ) * 2 ^ k := by
  have hl : Int.log 2 |x| = e := log_eq_of_bounds |x| e (abs_pos.mpr hx) h1 h2
  have hq : quantumExp x = k := by
    unfold quantumExp; rw [hl, hk]
  unfold flVal
  rw [hq, roundEven_eq_of_lt _ n h3 h4]

/-- Evaluation of `fl` at a value whose binade and rounded significand are
given, when the result is finite. -/
theorem fl_eq_of (x : ℚ) (e n k : Int) (y : ℚ) (hx : x ≠ 0) (h1 : (2 : ℚ) ^ e ≤ |x|)
    (h2 : |x| < (2 : ℚ) ^ (e + 1)) (hk : k = max (e - 23) (-149))
    (h3 : (n : ℚ) - 1 / 2 < x / 2 ^ k) (h4 : x / 2 ^ k < n + 1 / 2)
    (hy : (n : ℚ) * 2 ^ k = y) (h5 : |y| ≤ FLT_MAX) : fl x = .fin y := by
  unfold fl
  rw [flVal_eq_of x e n k hx h1 h2 hk h3 h4, hy, if_neg (not_lt.mpr h5)]

/-- Evaluation of `fl` at a value that overflows. -/
theorem fl_eq_inf_of (x : ℚ) (e n k : Int) (y : ℚ) (hx : x ≠ 0) (h1 : (2 : ℚ) ^ e ≤ |x|)
    (h2 : |x| < (2 : ℚ) ^ (e + 1)) (hk : k = max (e - 23) (-149))
    (h3 : (n : ℚ) - 1 / 2 < x / 2 ^ k) (h4 : x / 2 ^ k < n + 1 / 2)
    (hy : (n : ℚ) * 2 ^ k = y) (h5 : FLT_MAX < |y|) : fl x = .inf (decide (x < 0)) := by
  unfold fl
  rw [flVal_eq_of x e n k hx h1 h2 hk h3 h4, hy, if_pos h5]

theorem flVal_zero : flVal 0 = 0 := by
  unfold flVal
  have := roundEven_intCast 0
  simp only [Int.cast_zero] at this
  simp [this]

theorem fl_zero : fl 0 = .fin 0 := by
  unfold fl
  rw [flVal_zero]
  simp [FLT_MAX]

theorem fl_two_div_255 : fl (2 / 255) = .fin (8421505 / 1073741824) :=
  fl_eq_of (2 / 255) (-7) 8421505 (-30) _ (by norm_num) (by norm_num [abs_of_pos])
    (by norm_num [abs_of_pos]) (by decide) (by norm_num) (by norm_num) (by norm_num)
    (by norm_num [FLT_MAX, abs_of_pos])

theorem two_zpow_pos (k : Int) : (0 : ℚ) < 2 ^ k := zpow_pos (by norm_num) k

theorem flVal_err (z : ℚ) : |flVal z - z| ≤ 2 ^ quantumExp z / 2 := by
  have hp := two_zpow_pos (quantumExp z)
  have hn := roundEven_near (z / 2 ^ quantumExp z)
  have hz : flVal z - z
      = (((roundEven (z / 2 ^ quantumExp z) : Int) : ℚ) - z / 2 ^ quantumExp z)
        * 2 ^ quantumExp z := by
    unfold flVal
    field_simp
  rw [hz, abs_mul, abs_of_pos hp]
  calc |((roundEven (z / 2 ^ quantumExp z) : Int) : ℚ) - z / 2 ^ quantumExp z|
        * 2 ^ quantumExp z ≤ 1 / 2 * 2 ^ quantumExp z :=
        mul_le_mul_of_nonneg_right hn (le_of_lt hp)
    _ = 2 ^ quantumExp z / 2 := by ring

theorem flVal_nonneg (z : ℚ) (h : 0 ≤ z) : 0 ≤ flVal z := by
  unfold flVal
  have hp := two_zpow_pos (quantumExp z)
  have : (0 : Int) ≤ roundEven (z / 2 ^ quantumExp z) :=
    roundEven_nonneg _ (div_nonneg h (le_of_lt hp))
  exact mul_nonneg (by exact_mod_cast this) (le_of_lt hp)

theorem flVal_nonpos (z : ℚ) (h : z ≤ 0) : flVal z ≤ 0 := by
  unfold flVal
  have hp := two_zpow_pos (quantumExp z)
  have : roundEven (z / 2 ^ quantumExp z) ≤ (0 : Int) :=
    roundEven_nonpos _ (div_nonpos_of_nonpos_of_nonneg h (le_of_lt hp))
  exact mul_nonpos_of_nonpos_of_nonneg (by exact_mod_cast this) (le_of_lt hp)

/-- In the normal range the spacing is at most `2^-23` of the magnitude. -/
theorem quantum_le_normal (z : ℚ) (h : (2 : ℚ) ^ (-126 : Int) ≤ |z|) :
    (2 : ℚ) ^ quantumExp z ≤ |z| / 2 ^ (23 : Int) := by
  have hz : 0 < |z| := lt_of_lt_of_le (two_zpow_pos _) h
  have he : (-126 : Int) ≤ Int.log 2 |z| := by
    rw [← Int.zpow_le_iff_le_log (by norm_num) hz]; exact_mod_cast h
  have hk : quantumExp z = Int.log 2 |z| - 23 := by
    unfold quantumExp; exact max_eq_left (by omega)
  have hl : (2 : ℚ) ^ Int.log 2 |z| ≤ |z| := by
    have := Int.zpow_log_le_self (b := 2) (by norm_num) hz
    exact_mod_cast this
  rw [hk, zpow_sub₀ (by norm_num : (2 : ℚ) ≠ 0)]
  exact div_le_div_of_nonneg_right hl (le_of_lt (two_zpow_pos 23))

/-- Below `2^K` the spacing is at most `2^(K-24)`. -/
theorem quantum_le_of_lt (z : ℚ) (K : Int) (hK : -125 ≤ K) (h : |z| < (2 : ℚ) ^ K)
    (hz : z ≠ 0) : (2 : ℚ) ^ quantumExp z ≤ 2 ^ (K - 24) := by
  have hpos : 0 < |z| := abs_pos.mpr hz
  have he : Int.log 2 |z| < K := by
    rw [← Int.lt_zpow_iff_log_lt (by norm_num) hpos]; exact_mod_cast h
  have hk : quantumExp z ≤ K - 24 := by
    unfold quantumExp; exact max_le (by omega) (by omega)
  exact zpow_le_zpow_right₀ (by norm_num) hk

theorem flVal_rel (z : ℚ) (h : (2 : ℚ) ^ (-126 : Int) ≤ |z|) :
    |flVal z - z| ≤ |z| / 16777216 := by
  have h1 := flVal_err z
  have h2 := quantum_le_normal z h
  have h3 : |z| / 2 ^ (23 : Int) / 2 = |z| / 16777216 := by norm_num; ring
  linarith

theorem flVal_abs (z : ℚ) (K : Int) (hK : -125 ≤ K) (h : |z| < (2 : ℚ) ^ K) :
    |flVal z - z| ≤ 2 ^ (K - 24) / 2 := by
  by_cases hz : z = 0
  · subst hz
    rw [flVal_zero]
    simp only [sub_zero, abs_zero]
    exact le_of_lt (div_pos (two_zpow_pos _) (by norm_num))
  · have h1 := flVal_err z
    have h2 := quantum_le_of_lt z K hK h hz
    linarith

theorem fl_cases (z : ℚ) :
    (fl z = .fin (flVal z) ∧ |flVal z| ≤ FLT_MAX) ∨
    (fl z = .inf (decide (z < 0)) ∧ FLT_MAX < |flVal z|) := by
  unfold fl
  by_cases h : FLT_MAX < |flVal z|
  · right; rw [if_pos h]; exact ⟨rfl, h⟩
  · left; rw [if_neg h]; exact ⟨rfl, not_lt.mp h⟩

theorem fl_fin_of_le (z : ℚ) (h : |flVal z| ≤ FLT_MAX) : fl z = .fin (flVal z) := by
  unfold fl
  rw [if_neg (not_lt.mpr h)]

theorem fl_ne_nan (z : ℚ) : fl z ≠ .nan := by
  rcases fl_cases z with h | h <;> rw [h.1] <;> simp

theorem clip_fin (q : ℚ) : clip (.fin q) = .fin (TinyTensor.clip q) := by
  unfold clip TinyTensor.clip
  by_cases h1 : 127 < q
  · have h2 : ¬ ((127 : ℚ) < -128) := by norm_num
    simp [F32.lt, h1, h2]
  · by_cases h2 : q < -128
    · simp [F32.lt, h1, h2]
    · simp [F32.lt, h1, h2]

theorem clip_posInf : clip (.inf false) = .fin 127 := by
  have h2 : ¬ ((127 : ℚ) < -128) := by norm_num
  simp [clip, F32.lt, h2]

theorem clip_negInf : clip (.inf true) = .fin (-128) := by
  simp [clip, F32.lt]

theorem clip_nan : clip .nan = .nan := by
  simp [clip, F32.lt]

theorem castInt8_of_int (n : Int) (h1 : -128 ≤ n) (h2 : n ≤ 127) :
    castInt8 (.fin (n : ℚ)) = some n := by
  have ht : (if (0 : ℚ) ≤ (n : ℚ) then ⌊(n : ℚ)⌋ else -⌊-(n : ℚ)⌋) = n := by
    by_cases h : (0 : ℚ) ≤ (n : ℚ)
    · simp [h]
    · simp only [h, if_false]
      have : (-(n : ℚ)) = ((-n : Int) : ℚ) := by push_cast; ring
      rw [this, Int.floor_intCast]; simp
  unfold castInt8
  simp only [ht]
  rw [if_pos ⟨h1, h2⟩]

/-- The code of a cell whose quotient is finite. -/
theorem encode_of_fin (scale : F32) (v q : ℚ) (h : F32.div (.fin v) scale = .fin q) :
    encode scale v = some (roundHalfAwayFromZero (TinyTensor.clip q)) := by
  unfold encode
  rw [h, clip_fin]
  show castInt8 (.fin (TinyTensor.round (TinyTensor.clip q))) = _
  rw [round_eq_cast]
  exact castInt8_of_int _ (roundClip_range q).1 (roundClip_range q).2

/-- The code of a cell whose quotient is `+inf`. -/
theorem encode_of_posInf (scale : F32) (v : ℚ) (h : F32.div (.fin v) scale = .inf false) :
    encode scale v = some 127 := by
  unfold encode
  rw [h, clip_posInf]
  show castInt8 (.fin (TinyTensor.round 127)) = _
  have e : TinyTensor.round 127 = ((127 : Int) : ℚ) := by
    rw [round_eq_cast]
    have := roundHalfAwayFromZero_intCast 127
    push_cast at this
    rw [this]
  rw [e]
  exact castInt8_of_int 127 (by decide) (by decide)

/-- The code of a cell whose quotient is `-inf`. -/
theorem encode_of_negInf (scale : F32) (v : ℚ) (h : F32.div (.fin v) scale = .inf true) :
    encode scale v = some (-128) := by
  unfold encode
  rw [h, clip_negInf]
  show castInt8 (.fin (TinyTensor.round (-128))) = _
  have e : TinyTensor.round (-128) = ((-128 : Int) : ℚ) := by
    rw [round_eq_cast]
    have := roundHalfAwayFromZero_intCast (-128)
    push_cast at this
    rw [this]
  rw [e]
  exact castInt8_of_int (-128) (by decide) (by decide)

/-- A NaN quotient has no code: the conversion is undefined. -/
theorem encode_of_nan (scale : F32) (v : ℚ) (h : F32.div (.fin v) scale = .nan) :
    encode scale v = none := by
  unfold encode
  rw [h, clip_nan]
  rfl

theorem div_fin_ne_nan (scale : F32) (v : ℚ) (h1 : scale ≠ .nan) (h2 : scale ≠ .fin 0) :
    F32.div (.fin v) scale ≠ .nan := by
  cases scale with
  | nan => exact absurd rfl h1
  | inf s => simp [F32.div]
  | fin s =>
    have hs : s ≠ 0 := fun h => h2 (by rw [h])
    simp only [F32.div, hs, if_false]
    exact fl_ne_nan _

/-- Away from a NaN quotient the cell has a code, the clamp of the quotient
rounded half away from zero. -/
theorem encode_eq_clampExt (scale : F32) (v : ℚ) (h1 : scale ≠ .nan) (h2 : scale ≠ .fin 0) :
    ∃ c, clampExt (F32.div (.fin v) scale) = some c ∧
      encode scale v = some (roundHalfAwayFromZero c) := by
  have hne := div_fin_ne_nan scale v h1 h2
  cases hq : F32.div (.fin v) scale with
  | nan => exact absurd hq hne
  | inf s =>
    cases s with
    | false =>
      refine ⟨127, rfl, ?_⟩
      rw [encode_of_posInf scale v hq]
      have := roundHalfAwayFromZero_intCast 127
      push_cast at this
      rw [this]
    | true =>
      refine ⟨-128, rfl, ?_⟩
      rw [encode_of_negInf scale v hq]
      have := roundHalfAwayFromZero_intCast (-128)
      push_cast at this
      rw [this]
  | fin q =>
    refine ⟨clamp q (-128) 127, rfl, ?_⟩
    rw [encode_of_fin scale v q hq, clip_eq_clamp]

theorem encode_eq_codeOf (scale : F32) (v : ℚ) (h1 : scale ≠ .nan) (h2 : scale ≠ .fin 0) :
    encode scale v = some (codeOf scale v) := by
  obtain ⟨c, _, hc⟩ := encode_eq_clampExt scale v h1 h2
  unfold codeOf
  rw [hc]
  rfl

theorem scaleOf_ne_nan (mn mx : ℚ) : scaleOf mn mx ≠ .nan := by
  unfold scaleOf
  simp only []
  split_ifs with h
  · simp
  · rcases fl_cases (mx - mn) with h1 | h1
    · rw [h1.1]
      have h255 : (255 : ℚ) ≠ 0 := by norm_num
      simp only [F32.div, h255, if_false]
      exact fl_ne_nan _
    · rw [h1.1]
      simp [F32.div]

theorem encodeLoop_closed (buf : List ℚ) (scale : F32)
    (hc : ∀ v ∈ buf, encode scale v = some (codeOf scale v)) :
    ∀ (k i : Nat) (out : List Int), i + k ≤ buf.length → i + k ≤ out.length →
      encodeLoop buf scale k i out =
        some (out.take i ++ ((buf.drop i).take k).map (codeOf scale) ++ out.drop (i + k)) := by
  intro k
  induction k with
  | zero => intro i out _ _; simp [encodeLoop]
  | succ k ih =>
    intro i out hb ho
    have hi : i < buf.length := by omega
    have hj : i < out.length := by omega
    have hd : buf.drop i = buf[i] :: buf.drop (i + 1) := List.drop_eq_getElem_cons hi
    rw [encodeLoop, List.getElem?_eq_getElem hi]
    simp only [hj, if_true, hc _ (List.getElem_mem hi)]
    rw [ih (i + 1) _ (by omega) (by simp; omega), hd, List.take_succ_cons, List.map_cons,
      take_succ_set _ _ _ hj, drop_succ_set]
    simp

/-- The loop stops with an undefined conversion at the first cell it visits
that has no code. -/
theorem encodeLoop_none_of_nan (buf : List ℚ) (scale : F32) (k i : Nat) (out : List Int)
    (v : ℚ) (hv : buf[i]? = some v) (hn : encode scale v = none) :
    encodeLoop buf scale (k + 1) i out = none := by
  rw [encodeLoop, hv]
  simp only [hn]
  split_ifs <;> rfl

/-- The success path of the binary32 `quantize_tensor` in closed form, when the
derived scale is not zero. -/
theorem quantize_tensor_closed (x y : Tensor) (xs : List ℚ) (ys : List Int)
    (hx : x.IsF32 xs) (hy : y.IsI8 ys) (hn : 1 ≤ xs.length) (hle : xs.length ≤ ys.length)
    (hs : quantScale xs ≠ .fin 0) :
    quantize_tensor x y = some
      { input := x
        output := { y with data := some (.i8 (xs.map (codeOf (quantScale xs)) ++
          ys.drop xs.length)) }
        diag := [.banner, .params (minMaxOf xs).1 (minMaxOf xs).2 (quantScale xs)] } := by
  obtain ⟨hx1, hx2, hx3⟩ := hx
  obtain ⟨hy1, hy2, _⟩ := hy
  cases xs with
  | nil => simp at hn
  | cons v0 vs =>
    have hsz : (x.size - 1).toNat = vs.length := by
      rw [hx3]; simp
    have hsz2 : x.size.toNat = vs.length + 1 := by
      rw [hx3]; simp
    have hscan : scanMinMax (v0 :: vs) vs.length 1 v0 v0 = some (scanList vs v0 v0) := by
      rw [scanMinMax_eq_scanList _ _ _ _ _ (by simp; omega)]
      simp
    have hloop := encodeLoop_closed (v0 :: vs) (quantScale (v0 :: vs))
      (fun v _ => encode_eq_codeOf _ v (scaleOf_ne_nan _ _) hs) (vs.length + 1) 0 ys
      (by simp) (by simpa using hle)
    unfold quantize_tensor
    rw [hx1, hy1, hx2, hy2]
    simp only [ne_eq, not_true_eq_false, or_self, if_false, List.getElem?_cons_zero, hsz, hscan,
      hsz2]
    simp only [Nat.add_one_ne_zero, if_false]
    have hq : scaleOf (scanList vs v0 v0).1 (scanList vs v0 v0).2 = quantScale (v0 :: vs) := rfl
    rw [hq, hloop]
    simp [minMaxOf]

/-- The call is undefined when the first cell has no code. -/
theorem quantize_tensor_nan (x y : Tensor) (v0 : ℚ) (vs : List ℚ) (ys : List Int)
    (hx : x.IsF32 (v0 :: vs)) (hy : y.IsI8 ys)
    (hnan : encode (quantScale (v0 :: vs)) v0 = none) :
    quantize_tensor x y = none := by
  obtain ⟨hx1, hx2, hx3⟩ := hx
  obtain ⟨hy1, hy2, _⟩ := hy
  have hsz : (x.size - 1).toNat = vs.length := by
    rw [hx3]; simp
  have hsz2 : x.size.toNat = vs.length + 1 := by
    rw [hx3]; simp
  have hscan : scanMinMax (v0 :: vs) vs.length 1 v0 v0 = some (scanList vs v0 v0) := by
    rw [scanMinMax_eq_scanList _ _ _ _ _ (by simp; omega)]
    simp
  have hloop := encodeLoop_none_of_nan (v0 :: vs) (quantScale (v0 :: vs)) vs.length 0 ys v0
    List.getElem?_cons_zero hnan
  unfold quantize_tensor
  rw [hx1, hy1, hx2, hy2]
  simp only [ne_eq, not_true_eq_false, or_self, if_false, List.getElem?_cons_zero, hsz, hscan,
    hsz2]
  simp only [Nat.add_one_ne_zero, if_false]
  have hq : scaleOf (scanList vs v0 v0).1 (scanList vs v0 v0).2 = quantScale (v0 :: vs) := rfl
  rw [hq, hloop]
  rfl

theorem getElem?_coded (xs : List ℚ) (ys : List Int) (sc : F32) (i : Nat)
    (hi : i < xs.length) :
    (xs.map (codeOf sc) ++ ys.drop xs.length)[i]? = some (codeOf sc xs[i]) := by
  rw [List.getElem?_append_left (by simpa using hi), List.getElem?_map,
    List.getElem?_eq_getElem hi]
  rfl

theorem codeOf_of_fin (scale : F32) (v q : ℚ) (c : Int)
    (h : F32.div (.fin v) scale = .fin q)
    (hc : roundHalfAwayFromZero (TinyTensor.clip q) = c) : codeOf scale v = c := by
  unfold codeOf
  rw [encode_of_fin scale v q h, hc]
  rfl

theorem fl_one : fl 1 = .fin 1 :=
  fl_eq_of 1 0 8388608 (-23) _ (by norm_num) (by norm_num) (by norm_num) (by decide)
    (by norm_num) (by norm_num) (by norm_num) (by norm_num [FLT_MAX])

theorem fl_two : fl 2 = .fin 2 :=
  fl_eq_of 2 1 8388608 (-22) _ (by norm_num) (by norm_num) (by norm_num) (by decide)
    (by norm_num) (by norm_num) (by norm_num) (by norm_num [FLT_MAX])

theorem fl_one_div_255 : fl (1 / 255) = .fin (8421505 / 2147483648) :=
  fl_eq_of (1 / 255) (-8) 8421505 (-31) _ (by norm_num) (by norm_num [abs_of_pos])
    (by norm_num [abs_of_pos]) (by decide) (by norm_num) (by norm_num) (by norm_num)
    (by norm_num [FLT_MAX, abs_of_pos])

/-- The scale derived from a range of 2, as for `{-1, 0, 1}` and `{-1, 1}`. -/
theorem scaleOf_neg_one_one : scaleOf (-1) 1 = .fin (8421505 / 1073741824) := by
  have h2 : (1 : ℚ) - -1 = 2 := by norm_num
  unfold scaleOf
  simp only [h2, fl_two]
  have h255 : (255 : ℚ) ≠ 0 := by norm_num
  simp only [F32.eq, F32.div, h255, if_false]
  rw [fl_two_div_255]
  simp

theorem div_neg_one : F32.div (.fin (-1)) (.fin (8421505 / 1073741824))
    = .fin (-16711679 / 131072) := by
  have hs : (8421505 / 1073741824 : ℚ) ≠ 0 := by norm_num
  simp only [F32.div, hs, if_false]
  exact fl_eq_of _ 6 (-16711679) (-17) _ (by norm_num) (by norm_num [abs_of_neg])
    (by norm_num [abs_of_neg]) (by decide) (by norm_num) (by norm_num) (by norm_num)
    (by norm_num [FLT_MAX, abs_of_neg])

theorem div_pos_one : F32.div (.fin 1) (.fin (8421505 / 1073741824))
    = .fin (16711679 / 131072) := by
  have hs : (8421505 / 1073741824 : ℚ) ≠ 0 := by norm_num
  simp only [F32.div, hs, if_false]
  exact fl_eq_of _ 6 16711679 (-17) _ (by norm_num) (by norm_num [abs_of_pos])
    (by norm_num [abs_of_pos]) (by decide) (by norm_num) (by norm_num) (by norm_num)
    (by norm_num [FLT_MAX, abs_of_pos])

theorem div_zero_of_ne (s : ℚ) (hs : s ≠ 0) : F32.div (.fin 0) (.fin s) = .fin 0 := by
  simp only [F32.div, hs, if_false, zero_div]
  exact fl_zero

theorem codeOf_neg_one : codeOf (.fin (8421505 / 1073741824)) (-1) = -127 :=
  codeOf_of_fin _ _ _ _ div_neg_one (by
    norm_num [roundHalfAwayFromZero, TinyTensor.clip, Int.ceil_eq_iff, Int.floor_eq_iff])

theorem codeOf_pos_one : codeOf (.fin (8421505 / 1073741824)) 1 = 127 :=
  codeOf_of_fin _ _ _ _ div_pos_one (by
    norm_num [roundHalfAwayFromZero, TinyTensor.clip, Int.ceil_eq_iff, Int.floor_eq_iff])

theorem codeOf_zero (s : ℚ) (hs : s ≠ 0) : codeOf (.fin s) 0 = 0 :=
  codeOf_of_fin _ _ _ _ (div_zero_of_ne s hs) (by
    norm_num [roundHalfAwayFromZero, TinyTensor.clip, Int.ceil_eq_iff, Int.floor_eq_iff])

/-- In binary32 the input `{-1, 0, 1}` is coded `{-127, 0, 127}`. -/
theorem quantize_neg_one_zero_one (a b c : Int) :
    quantize_tensor (f32Tensor [-1, 0, 1]) (i8Tensor [a, b, c]) = some
      { input := f32Tensor [-1, 0, 1]
        output := { i8Tensor [a, b, c] with data := some (.i8 [-127, 0, 127]) }
        diag := [.banner, .params (-1) 1 (.fin (8421505 / 1073741824))] } := by
  have hm : minMaxOf [-1, 0, 1] = (-1, 1) := by norm_num [minMaxOf, scanList]
  have hq : quantScale [-1, 0, 1] = .fin (8421505 / 1073741824) := by
    unfold quantScale
    rw [hm]
    exact scaleOf_neg_one_one
  have h := quantize_tensor_closed (f32Tensor [-1, 0, 1]) (i8Tensor [a, b, c]) [-1, 0, 1] [a, b, c]
    (f32Tensor_isF32 _) (i8Tensor_isI8 _) (by decide) (le_refl 3) (by rw [hq]; simp)
  rw [h, hq, hm]
  simp [codeOf_neg_one, codeOf_pos_one, codeOf_zero]

/-- The range of `{FLT_MAX, -FLT_MAX}` overflows. -/
theorem fl_two_flt_max : fl (FLT_MAX - -FLT_MAX) = .inf false := by
  have h := fl_eq_inf_of (FLT_MAX - -FLT_MAX) 128 16777215 105
    680564693277057719623408366969033850880
    (by norm_num [FLT_MAX]) (by norm_num [FLT_MAX, abs_of_pos])
    (by norm_num [FLT_MAX, abs_of_pos]) (by decide) (by norm_num [FLT_MAX])
    (by norm_num [FLT_MAX]) (by norm_num) (by norm_num [FLT_MAX, abs_of_pos])
  rw [h]
  have : ¬ (FLT_MAX - -FLT_MAX < 0) := by norm_num [FLT_MAX]
  rw [decide_eq_false this]

theorem scaleOf_flt_max : scaleOf (-FLT_MAX) FLT_MAX = .inf false := by
  unfold scaleOf
  simp only [fl_two_flt_max]
  have h255 : ¬ ((255 : ℚ) < 0) := by norm_num
  simp [F32.eq, F32.div, h255]

theorem codeOf_of_inf_scale (v : ℚ) : codeOf (.inf false) v = 0 :=
  codeOf_of_fin _ v 0 0 (by simp [F32.div]) (by
    norm_num [roundHalfAwayFromZero, TinyTensor.clip, Int.ceil_eq_iff, Int.floor_eq_iff])

/-- In binary32 the input `{FLT_MAX, -FLT_MAX}` is coded `{0, 0}`: the range
overflows and the scale is `+inf`. -/
theorem quantize_flt_max (a b : Int) :
    quantize_tensor (f32Tensor [FLT_MAX, -FLT_MAX]) (i8Tensor [a, b]) = some
      { input := f32Tensor [FLT_MAX, -FLT_MAX]
        output := { i8Tensor [a, b] with data := some (.i8 [0, 0]) }
        diag := [.banner, .params (-FLT_MAX) FLT_MAX (.inf false)] } := by
  have hm : minMaxOf [FLT_MAX, -FLT_MAX] = (-FLT_MAX, FLT_MAX) := by
    norm_num [minMaxOf, scanList, FLT_MAX]
  have hq : quantScale [FLT_MAX, -FLT_MAX] = .inf false := by
    unfold quantScale
    rw [hm]
    exact scaleOf_flt_max
  have h := quantize_tensor_closed (f32Tensor [FLT_MAX, -FLT_MAX]) (i8Tensor [a, b])
    [FLT_MAX, -FLT_MAX] [a, b] (f32Tensor_isF32 _) (i8Tensor_isI8 _) (by decide) (le_refl 2)
    (by rw [hq]; simp)
  rw [h, hq, hm]
  simp [codeOf_of_inf_scale]

/-- The subnormal range `127 * 2^-149` is a binary32 value. -/
theorem fl_subnormal_range : fl (127 / 2 ^ 149 - 0) = .fin (127 / 2 ^ 149) :=
  fl_eq_of _ (-143) 127 (-149) _ (by norm_num) (by norm_num [abs_of_pos])
    (by norm_num [abs_of_pos]) (by decide) (by norm_num) (by norm_num) (by norm_num)
    (by norm_num [FLT_MAX, abs_of_pos])

/-- Dividing that range by 255 underflows to zero. -/
theorem fl_subnormal_scale : fl (127 / 2 ^ 149 / 255) = .fin 0 :=
  fl_eq_of _ (-151) 0 (-149) _ (by norm_num) (by norm_num [abs_of_pos])
    (by norm_num [abs_of_pos]) (by decide) (by norm_num) (by norm_num) (by norm_num)
    (by norm_num [FLT_MAX])

theorem scaleOf_subnormal : scaleOf 0 (127 / 2 ^ 149) = .fin 0 := by
  unfold scaleOf
  simp only [fl_subnormal_range]
  have h1 : (127 / 2 ^ 149 : ℚ) ≠ 0 := by norm_num
  have h255 : (255 : ℚ) ≠ 0 := by norm_num
  simp only [F32.eq, F32.div, h255, if_false]
  rw [fl_subnormal_scale]
  simp [h1]

theorem quantScale_subnormal : quantScale [0, 1 / 2 ^ 149, 127 / 2 ^ 149] = .fin 0 := by
  have hm : minMaxOf [0, 1 / 2 ^ 149, 127 / 2 ^ 149] = (0, 127 / 2 ^ 149) := by
    norm_num [minMaxOf, scanList]
  unfold quantScale
  rw [hm]
  exact scaleOf_subnormal

/-- The scale derived from `min = 0`, `max = 1`. -/
theorem scaleOf_zero_one : scaleOf 0 1 = .fin (8421505 / 2147483648) := by
  have h1 : (1 : ℚ) - 0 = 1 := by norm_num
  unfold scaleOf
  simp only [h1, fl_one]
  have h255 : (255 : ℚ) ≠ 0 := by norm_num
  simp only [F32.eq, F32.div, h255, if_false]
  rw [fl_one_div_255]
  simp

theorem div_tie_cell : F32.div (.fin (12632257 / 2147483648)) (.fin (8421505 / 2147483648))
    = .fin (3 / 2) := by
  have hs : (8421505 / 2147483648 : ℚ) ≠ 0 := by norm_num
  simp only [F32.div, hs, if_false]
  exact fl_eq_of _ 0 12582912 (-23) _ (by norm_num) (by norm_num [abs_of_pos])
    (by norm_num [abs_of_pos]) (by decide) (by norm_num) (by norm_num) (by norm_num)
    (by norm_num [FLT_MAX, abs_of_pos])

theorem codeOf_tie_cell : codeOf (.fin (8421505 / 2147483648)) (12632257 / 2147483648) = 2 :=
  codeOf_of_fin _ _ _ _ div_tie_cell (by
    norm_num [roundHalfAwayFromZero, TinyTensor.clip, Int.ceil_eq_iff, Int.floor_eq_iff])

theorem fl_tie_cell : fl (12632257 / 2147483648) = .fin (12632257 / 2147483648) :=
  fl_eq_of _ (-8) 12632257 (-31) _ (by norm_num) (by norm_num [abs_of_pos])
    (by norm_num [abs_of_pos]) (by decide) (by norm_num) (by norm_num) (by norm_num)
    (by norm_num [FLT_MAX, abs_of_pos])

end B32

theorem isMinMax_minMaxOf (xs : List ℚ) (hn : 1 ≤ xs.length) :
    IsMinMax xs (minMaxOf xs).1 (minMaxOf xs).2 := minMaxOf_spec xs hn

theorem isMinMax_unique (xs : List ℚ) (mn mx : ℚ) (hn : 1 ≤ xs.length)
    (h : IsMinMax xs mn mx) : mn = (minMaxOf xs).1 ∧ mx = (minMaxOf xs).2 := by
  obtain ⟨h1, h2, h3, h4⟩ := minMaxOf_spec xs hn
  obtain ⟨g1, g2, g3, g4⟩ := h
  exact ⟨le_antisymm (g2 _ h1) (h2 _ g1), le_antisymm (h4 _ g3) (g4 _ h3)⟩

namespace B32

theorem quantScale_of_isMinMax (xs : List ℚ) (mn mx : ℚ) (hn : 1 ≤ xs.length)
    (h : IsMinMax xs mn mx) : quantScale xs = scaleOf mn mx := by
  obtain ⟨e1, e2⟩ := isMinMax_unique xs mn mx hn h
  unfold quantScale
  rw [← e1, ← e2]

/-- When the range is at least `2^-117` and its binary32 value is finite, the
derived scale is a positive finite number within one part in a million of
`(max - min) / 255`. -/
theorem scaleOf_bounds (mn mx r : ℚ) (hlow : (2 : ℚ) ^ (-117 : Int) ≤ mx - mn)
    (hfin : fl (mx - mn) = .fin r) :
    ∃ s, scaleOf mn mx = .fin s ∧ 0 < s ∧
      (mx - mn) / 255 * (999999 / 1000000) ≤ s ∧ s ≤ (mx - mn) / 255 * (1000001 / 1000000) := by
  have hz1 : 0 < mx - mn := lt_of_lt_of_le (two_zpow_pos _) hlow
  have habs1 : |mx - mn| = mx - mn := abs_of_pos hz1
  have hr : r = flVal (mx - mn) ∧ |flVal (mx - mn)| ≤ FLT_MAX := by
    rcases fl_cases (mx - mn) with h | h
    · rw [h.1] at hfin
      exact ⟨(F32.fin.inj hfin).symm, h.2⟩
    · rw [h.1] at hfin
      exact absurd hfin (by simp)
  have hrel1 := flVal_rel (mx - mn) (by
    rw [habs1]
    refine le_trans ?_ hlow
    norm_num)
  rw [habs1, ← hr.1, abs_le] at hrel1
  have hrmax : r ≤ FLT_MAX := by
    have := hr.2
    rw [← hr.1] at this
    exact le_trans (le_abs_self _) this
  have hlow' : (1 : ℚ) / 166153499473114484112975882535043072 ≤ mx - mn := by
    refine le_trans ?_ hlow
    norm_num
  have hrpos : 0 < r := by linarith
  have hz2 : 0 < r / 255 := by positivity
  have habs2 : |r / 255| = r / 255 := abs_of_pos hz2
  have hrel2 := flVal_rel (r / 255) (by
    rw [habs2]
    have : (2 : ℚ) ^ (-126 : Int) = 1 / 85070591730234615865843651857942052864 := by norm_num
    rw [this]
    linarith)
  rw [habs2, abs_le] at hrel2
  have hs_le : |flVal (r / 255)| ≤ FLT_MAX := by
    rw [abs_le]
    have : (0 : ℚ) < FLT_MAX := by norm_num [FLT_MAX]
    constructor <;> linarith
  have hne : r ≠ 0 := ne_of_gt hrpos
  have h255 : (255 : ℚ) ≠ 0 := by norm_num
  refine ⟨flVal (r / 255), ?_, ?_, ?_, ?_⟩
  · unfold scaleOf
    simp only [hfin, F32.eq, F32.div, h255, if_false]
    have : ¬ (F32.fin r = F32.fin 0) := by simp [hne]
    simp only [this, decide_False, Bool.false_eq_true, if_false]
    exact fl_fin_of_le _ hs_le
  · linarith
  · linarith
  · linarith

/-- A cell whose exact quotient by a positive finite scale has magnitude at
least 127.49 is coded 127 when positive and -127 or -128 when negative. -/
theorem encode_of_large (s x : ℚ) (hs : 0 < s) (h : 12749 / 100 * s ≤ |x|) :
    ∃ c, encode (.fin s) x = some c ∧
      (0 < x → c = 127) ∧ (x < 0 → c = -127 ∨ c = -128) ∧ x ≠ 0 := by
  have hx0 : x ≠ 0 := by
    intro h0
    rw [h0, abs_zero] at h
    linarith
  have hsne : s ≠ 0 := ne_of_gt hs
  have hdiv : F32.div (.fin x) (.fin s) = fl (x / s) := by
    simp only [F32.div, hsne, if_false]
  have hz : 12749 / 100 ≤ |x / s| := by
    rw [abs_div, abs_of_pos hs, le_div_iff₀ hs]
    exact h
  have hnorm : (2 : ℚ) ^ (-126 : Int) ≤ |x / s| := by
    refine le_trans ?_ hz
    norm_num
  have hrel := flVal_rel (x / s) hnorm
  rcases lt_or_gt_of_ne hx0 with hneg | hpos
  · -- negative cell
    have hzneg : x / s < 0 := div_neg_of_neg_of_pos hneg hs
    rw [abs_of_neg hzneg] at hz hrel
    rw [abs_le] at hrel
    rcases fl_cases (x / s) with hc | hc
    · have hq : flVal (x / s) ≤ -127 := by linarith
      have e1 := encode_of_fin (.fin s) x _ (hdiv.trans hc.1)
      refine ⟨_, e1, fun h0 => absurd h0 (not_lt.mpr (le_of_lt hneg)), fun _ => ?_, hx0⟩
      have r1 := (roundClip_range (flVal (x / s))).1
      have r2 := roundHalfAwayFromZero_mono (clip_mono hq)
      have e2 : roundHalfAwayFromZero (TinyTensor.clip (-127)) = -127 := by
        norm_num [roundHalfAwayFromZero, TinyTensor.clip, Int.ceil_eq_iff, Int.floor_eq_iff]
      rw [e2] at r2
      omega
    · rw [decide_eq_true hzneg] at hc
      exact ⟨_, encode_of_negInf (.fin s) x (hdiv.trans hc.1),
        fun h0 => absurd h0 (not_lt.mpr (le_of_lt hneg)), fun _ => Or.inr rfl, hx0⟩
  · -- positive cell
    have hzpos : 0 < x / s := div_pos hpos hs
    rw [abs_of_pos hzpos] at hz hrel
    rw [abs_le] at hrel
    rcases fl_cases (x / s) with hc | hc
    · have hq : 253 / 2 ≤ flVal (x / s) := by linarith
      have e1 := encode_of_fin (.fin s) x _ (hdiv.trans hc.1)
      rw [roundClip_of_ge _ hq] at e1
      exact ⟨_, e1, fun _ => rfl, fun h0 => absurd h0 (not_lt.mpr (le_of_lt hpos)), hx0⟩
    · rw [decide_eq_false (not_lt.mpr (le_of_lt hzpos))] at hc
      exact ⟨_, encode_of_posInf (.fin s) x (hdiv.trans hc.1), fun _ => rfl,
        fun h0 => absurd h0 (not_lt.mpr (le_of_lt hpos)), hx0⟩

end B32

/-- C7, as stated, fails in binary32.  The input `{-1, 0, 1}` is coded
`{-127, 0, 127}`, not `{-128, 0, 127}`: `2 / 255` rounds up, so `-1 / scale`
is `-127.49999`.  The non-constant input `{FLT_MAX, -FLT_MAX}`, both cells of
maximal magnitude, is coded `{0, 0}`: the range overflows to `+inf`. -/
theorem C7_extrema_binary32_counterexample :
    (∃ r, B32.quantize_tensor (f32Tensor [-1, 0, 1]) (i8Tensor [0, 0, 0]) = some r ∧
      r.output.data = some (.i8 [-127, 0, 127]) ∧
      r.output.data ≠ some (.i8 [-128, 0, 127])) ∧
    (∃ r, B32.quantize_tensor (f32Tensor [B32.FLT_MAX, -B32.FLT_MAX]) (i8Tensor [5, 5])
        = some r ∧
      r.diag = [.banner, .params (-B32.FLT_MAX) B32.FLT_MAX (.inf false)] ∧
      r.output.data = some (.i8 [0, 0]) ∧ (0 : ℚ) < B32.FLT_MAX - -B32.FLT_MAX ∧
      ¬ (|(|(0 : Int)| - 127)| ≤ 1)) := by
  refine ⟨⟨_, B32.quantize_neg_one_zero_one 0 0 0, rfl, by decide⟩,
    ⟨_, B32.quantize_flt_max 5 5, rfl, rfl, by norm_num [B32.FLT_MAX], by decide⟩⟩

/-- C7 (amended): extrema law in binary32.  For an input whose range
`max - min` is at least `2^-117` and does not overflow (its binary32 value is
finite), the code at an index of maximal magnitude is 127, -127 or -128,
hence `| |y[m]| - 127 | ≤ 1`; and the input `{-1, 0, 1}` yields
`{-127, 0, 127}`. -/
theorem C7_extrema_law_binary32 :
    (∀ (x y : Tensor) (xs : List ℚ) (ys : List Int) (m : Nat) (hm : m < xs.length)
      (mn mx r : ℚ),
      x.IsF32 xs → y.IsI8 ys → xs.length ≤ ys.length → IsMinMax xs mn mx →
      (2 : ℚ) ^ (-117 : Int) ≤ mx - mn → B32.fl (mx - mn) = .fin r →
      (∀ a ∈ xs, |a| ≤ |xs[m]|) →
      ∃ (res : B32.QResult) (out : List Int) (c : Int),
        B32.quantize_tensor x y = some res ∧ res.output.data = some (.i8 out) ∧
        out[m]? = some c ∧ (c = 127 ∨ c = -127 ∨ c = -128) ∧ |(|c| - 127)| ≤ 1) ∧
    (∀ a b c : Int, ∃ res : B32.QResult,
      B32.quantize_tensor (f32Tensor [-1, 0, 1]) (i8Tensor [a, b, c]) = some res ∧
      res.output.data = some (.i8 [-127, 0, 127])) := by
  constructor
  · intro x y xs ys m hm mn mx r hx hy hle hmm hlow hfin hmax
    have hn : 1 ≤ xs.length := by omega
    obtain ⟨s, hs, hspos, _, hsup⟩ := B32.scaleOf_bounds mn mx r hlow hfin
    have hqs : B32.quantScale xs = .fin s := by
      rw [B32.quantScale_of_isMinMax xs mn mx hn hmm, hs]
    obtain ⟨g1, _, g3, _⟩ := hmm
    have hz1 : 0 < mx - mn := lt_of_lt_of_le (B32.two_zpow_pos _) hlow
    have hbig : 12749 / 100 * s ≤ |xs[m]| := by
      have a1 := hmax _ g1
      have a2 := hmax _ g3
      have a3 := neg_abs_le mn
      have a4 := le_abs_self mx
      linarith
    obtain ⟨c, hc, hcp, hcn, hx0⟩ := B32.encode_of_large s xs[m] hspos hbig
    have hcode : B32.codeOf (B32.quantScale xs) xs[m] = c := by
      unfold B32.codeOf
      rw [hqs, hc]
      rfl
    have hcases : c = 127 ∨ c = -127 ∨ c = -128 := by
      rcases lt_or_gt_of_ne hx0 with h | h
      · rcases hcn h with h1 | h1
        · exact Or.inr (Or.inl h1)
        · exact Or.inr (Or.inr h1)
      · exact Or.inl (hcp h)
    refine ⟨_, _, c,
      B32.quantize_tensor_closed x y xs ys hx hy hn hle (by rw [hqs]; simp [ne_of_gt hspos]),
      rfl, ?_, hcases, ?_⟩
    · rw [B32.getElem?_coded xs ys _ m hm, hcode]
    · rcases hcases with h | h | h <;> rw [h] <;> decide
  · intro a b c
    exact ⟨_, B32.quantize_neg_one_zero_one a b c, rfl⟩

/-- C7 (amended) at the input `{-1, 0, 1}` and its last cell, of maximal
magnitude. -/
theorem C7_extrema_law_binary32_witness :
    ∃ (res : B32.QResult) (out : List Int) (c : Int),
      B32.quantize_tensor (f32Tensor [-1, 0, 1]) (i8Tensor [0, 0, 0]) = some res ∧
      res.output.data = some (.i8 out) ∧
      out[2]? = some c ∧ (c = 127 ∨ c = -127 ∨ c = -128) ∧ |(|c| - 127)| ≤ 1 :=
  C7_extrema_law_binary32.1 (f32Tensor [-1, 0, 1]) (i8Tensor [0, 0, 0]) [-1, 0, 1] [0, 0, 0] 2
    (by decide) (-1) 1 2 (f32Tensor_isF32 _) (i8Tensor_isI8 _) (by decide)
    ⟨by simp, by
      intro a ha
      simp only [List.mem_cons, List.mem_singleton, List.not_mem_nil, or_false] at ha
      rcases ha with h | h | h <;> rw [h] <;> norm_num,
     by simp, by
      intro a ha
      simp only [List.mem_cons, List.mem_singleton, List.not_mem_nil, or_false] at ha
      rcases ha with h | h | h <;> rw [h] <;> norm_num⟩
    (by norm_num)
    (by
      have h2 : (1 : ℚ) - -1 = 2 := by norm_num
      rw [h2]
      exact B32.fl_two)
    (by
      intro a ha
      simp only [List.mem_cons, List.mem_singleton, List.not_mem_nil, or_false] at ha
      rcases ha with h | h | h <;> rw [h] <;> norm_num)

/-- C1, as stated, fails: the code divides in binary32.  For the input
`{-1, 0, 1}` the exact formula `roundHalfAwayFromZero (clamp (x[0] / scale))`
with `scale = 2 / 255` gives -128 for the first cell, and the code writes
-127. -/
theorem C1_exact_formula_counterexample :
    roundHalfAwayFromZero (clamp ((-1 : ℚ) / specScale (-1) 1) (-128) 127) = -128 ∧
    IsMinMax [-1, 0, 1] (-1) 1 ∧
    ∃ r out, B32.quantize_tensor (f32Tensor [-1, 0, 1]) (i8Tensor [0, 0, 0]) = some r ∧
      r.output.data = some (.i8 out) ∧ out[0]? = some (-127) := by
  refine ⟨?_, ⟨by simp, ?_, by simp, ?_⟩, _, _, B32.quantize_neg_one_zero_one 0 0 0, rfl, rfl⟩
  · norm_num [specScale, clamp, roundHalfAwayFromZero, Int.ceil_eq_iff, Int.floor_eq_iff]
  · intro a ha
    simp only [List.mem_cons, List.mem_singleton, List.not_mem_nil, or_false] at ha
    rcases ha with h | h | h <;> rw [h] <;> norm_num
  · intro a ha
    simp only [List.mem_cons, List.mem_singleton, List.not_mem_nil, or_false] at ha
    rcases ha with h | h | h <;> rw [h] <;> norm_num

/-- C1 (amended): for an F32 input of `n ≥ 1` cells with minimum `mn` and
maximum `mx` and an I8 output of `n` cells, let `scale` be 1 if the binary32
difference `mx - mn` is 0 and the binary32 quotient of that difference by
255 otherwise.  If `scale` is not 0, the call returns, reports `scale`, and
every output cell is `roundHalfAwayFromZero` of the clamp to `[-128, 127]`
of the binary32 quotient `x[i] / scale` (an infinite quotient clamps to the
endpoint on its side). -/
theorem C1_quantize_elementwise_binary32 (x y : Tensor) (xs : List ℚ) (ys : List Int)
    (mn mx : ℚ) (hx : x.IsF32 xs) (hy : y.IsI8 ys) (hn : 1 ≤ xs.length)
    (hlen : ys.length = xs.length) (hmm : IsMinMax xs mn mx)
    (hs : B32.scaleOf mn mx ≠ .fin 0) :
    ∃ (r : B32.QResult) (out : List Int) (scale : B32.F32),
      scale = (if B32.fl (mx - mn) = .fin 0 then .fin 1
        else B32.F32.div (B32.fl (mx - mn)) (.fin 255)) ∧
      B32.quantize_tensor x y = some r ∧ r.diag = [.banner, .params mn mx scale] ∧
      r.output.data = some (.i8 out) ∧ out.length = xs.length ∧
      ∀ (i : Nat) (hi : i < xs.length), ∃ c : ℚ,
        B32.clampExt (B32.F32.div (.fin xs[i]) scale) = some c ∧
        out[i]? = some (roundHalfAwayFromZero c) := by
  have hq := B32.quantScale_of_isMinMax xs mn mx hn hmm
  obtain ⟨e1, e2⟩ := isMinMax_unique xs mn mx hn hmm
  have hsc : B32.scaleOf mn mx = (if B32.fl (mx - mn) = .fin 0 then .fin 1
      else B32.F32.div (B32.fl (mx - mn)) (.fin 255)) := by
    unfold B32.scaleOf
    simp only []
    rcases B32.fl_cases (mx - mn) with h | h <;> rw [h.1] <;> simp [B32.F32.eq]
  refine ⟨_, _, B32.scaleOf mn mx, hsc,
    B32.quantize_tensor_closed x y xs ys hx hy hn (le_of_eq hlen.symm) (by rw [hq]; exact hs),
    ?_, rfl, ?_, ?_⟩
  · rw [hq, ← e1, ← e2]
  · simp [hlen]
  · intro i hi
    obtain ⟨c, hc1, hc2⟩ :=
      B32.encode_eq_clampExt (B32.scaleOf mn mx) xs[i] (B32.scaleOf_ne_nan mn mx) hs
    refine ⟨c, hc1, ?_⟩
    rw [B32.getElem?_coded xs ys _ i hi, hq]
    unfold B32.codeOf
    rw [hc2]
    rfl

/-- C1 (amended) at the input `{-1, 0, 1}` with a three-cell output. -/
theorem C1_quantize_elementwise_binary32_witness :
    ∃ (r : B32.QResult) (out : List Int) (scale : B32.F32),
      scale = (if B32.fl ((1 : ℚ) - -1) = .fin 0 then .fin 1
        else B32.F32.div (B32.fl ((1 : ℚ) - -1)) (.fin 255)) ∧
      B32.quantize_tensor (f32Tensor [-1, 0, 1]) (i8Tensor [0, 0, 0]) = some r ∧
      r.diag = [.banner, .params (-1) 1 scale] ∧
      r.output.data = some (.i8 out) ∧ out.length = [(-1 : ℚ), 0, 1].length ∧
      ∀ (i : Nat) (hi : i < [(-1 : ℚ), 0, 1].length), ∃ c : ℚ,
        B32.clampExt (B32.F32.div (.fin [(-1 : ℚ), 0, 1][i]) scale) = some c ∧
        out[i]? = some (roundHalfAwayFromZero c) :=
  C1_quantize_elementwise_binary32 (f32Tensor [-1, 0, 1]) (i8Tensor [0, 0, 0]) [-1, 0, 1]
    [0, 0, 0] (-1) 1 (f32Tensor_isF32 _) (i8Tensor_isI8 _) (by decide) rfl
    ⟨by simp, by
      intro a ha
      simp only [List.mem_cons, List.mem_singleton, List.not_mem_nil, or_false] at ha
      rcases ha with h | h | h <;> rw [h] <;> norm_num,
     by simp, by
      intro a ha
      simp only [List.mem_cons, List.mem_singleton, List.not_mem_nil, or_false] at ha
      rcases ha with h | h | h <;> rw [h] <;> norm_num⟩
    (by rw [B32.scaleOf_neg_one_one]; simp)

/-- C3: evaluation at the finite input `{0, 2^-149, 127 * 2^-149}`.  The
derived scale is `0.0f`; the first cell's quotient `0 / 0` is NaN, which
passes both clip tests unchanged and has no `int8_t` value, so the cast is
undefined and the call has no defined result; the second cell's quotient is
`+inf` and its code 127. -/
theorem C3_nan_reaches_cast :
    B32.quantScale [0, 1 / 2 ^ 149, 127 / 2 ^ 149] = .fin 0 ∧
    B32.clip (B32.F32.div (.fin 0) (.fin 0)) = .nan ∧
    B32.castInt8 (B32.round (B32.clip (B32.F32.div (.fin 0) (.fin 0)))) = none ∧
    B32.encode (.fin 0) 0 = none ∧
    B32.encode (.fin 0) (1 / 2 ^ 149) = some 127 ∧
    B32.quantize_tensor (f32Tensor [0, 1 / 2 ^ 149, 127 / 2 ^ 149]) (i8Tensor [9, 9, 9])
      = none := by
  have hdiv : B32.F32.div (.fin 0) (.fin 0) = .nan := by simp [B32.F32.div]
  have hnan : B32.encode (.fin 0) 0 = none := B32.encode_of_nan _ _ hdiv
  refine ⟨B32.quantScale_subnormal, ?_, ?_, hnan, ?_, ?_⟩
  · rw [hdiv, B32.clip_nan]
  · rw [hdiv, B32.clip_nan]; rfl
  · apply B32.encode_of_posInf
    have h1 : ((1 : ℚ) / 2 ^ 149) ≠ 0 := by norm_num
    have h2 : ¬ ((1 : ℚ) / 2 ^ 149 < 0) := by norm_num
    simp [B32.F32.div, h2]
  · apply B32.quantize_tensor_nan _ _ 0 [1 / 2 ^ 149, 127 / 2 ^ 149] [9, 9, 9]
      (f32Tensor_isF32 _) (i8Tensor_isI8 _)
    rw [B32.quantScale_subnormal]
    exact hnan

/-- C14: evaluation at the finite input `{0, 2^-149, 127 * 2^-149}` with a
three-cell output.  The range `127 * 2^-149` is not zero, so the guard of
line 92 takes the division branch, and `range / 255.0f` underflows to
`0.0f`: the derived scale is zero, not positive, and the encoding loop
divides by it (`0 / 0` for the first cell). -/
theorem C14_scale_underflows_to_zero :
    IsMinMax [0, 1 / 2 ^ 149, 127 / 2 ^ 149] 0 (127 / 2 ^ 149) ∧
    B32.fl (127 / 2 ^ 149 - 0) = .fin (127 / 2 ^ 149) ∧
    B32.F32.eq (.fin (127 / 2 ^ 149)) (.fin 0) = false ∧
    B32.F32.div (.fin (127 / 2 ^ 149)) (.fin 255) = .fin 0 ∧
    B32.scaleOf 0 (127 / 2 ^ 149) = .fin 0 ∧
    B32.F32.div (.fin 0) (B32.scaleOf 0 (127 / 2 ^ 149)) = .nan := by
  have h1 : (127 / 2 ^ 149 : ℚ) ≠ 0 := by norm_num
  have h255 : (255 : ℚ) ≠ 0 := by norm_num
  refine ⟨⟨by simp, ?_, by simp, ?_⟩, B32.fl_subnormal_range, ?_, ?_,
    B32.scaleOf_subnormal, ?_⟩
  · intro a ha
    simp only [List.mem_cons, List.mem_singleton, List.not_mem_nil, or_false] at ha
    rcases ha with h | h | h <;> rw [h] <;> norm_num
  · intro a ha
    simp only [List.mem_cons, List.mem_singleton, List.not_mem_nil, or_false] at ha
    rcases ha with h | h | h <;> rw [h] <;> norm_num
  · simp [B32.F32.eq, h1]
  · simp only [B32.F32.div, h255, if_false]
    exact B32.fl_subnormal_scale
  · rw [B32.scaleOf_subnormal]
    simp [B32.F32.div]

namespace B32

theorem abs_clip_sub_le (q z : ℚ) (h1 : -128 ≤ z) (h2 : z ≤ 127) :
    |TinyTensor.clip q - z| ≤ |q - z| := by
  unfold TinyTensor.clip
  by_cases c1 : q > 127
  · have c2 : ¬ ((127 : ℚ) < -128) := by norm_num
    simp only [c1, if_true, c2, if_false]
    rw [abs_of_nonneg (by linarith), abs_of_nonneg (by linarith)]
    linarith
  · by_cases c2 : q < -128
    · simp only [c1, if_false, c2, if_true]
      rw [abs_of_nonpos (by linarith), abs_of_nonpos (by linarith)]
      linarith
    · simp only [c1, if_false, c2]
      exact le_refl _

/-- A cell whose exact quotient by a positive finite scale lies in
`[-128, 127]` has a code within `1/2 + 2^-17` of that quotient. -/
theorem encode_near (s x : ℚ) (hs : 0 < s) (h1 : -128 ≤ x / s) (h2 : x / s ≤ 127) :
    ∃ c : Int, encode (.fin s) x = some c ∧ |(c : ℚ) - x / s| ≤ 1 / 2 + 1 / 131072 := by
  have hsne : s ≠ 0 := ne_of_gt hs
  have hdiv : F32.div (.fin x) (.fin s) = fl (x / s) := by
    simp only [F32.div, hsne, if_false]
  have hlt : |x / s| < (2 : ℚ) ^ (8 : Int) := by
    rw [abs_lt]
    constructor <;> norm_num <;> linarith
  have herr := flVal_abs (x / s) 8 (by decide) hlt
  have h17 : (2 : ℚ) ^ ((8 : Int) - 24) / 2 = 1 / 131072 := by norm_num
  rw [h17] at herr
  have hfin : fl (x / s) = .fin (flVal (x / s)) := by
    apply fl_fin_of_le
    have := abs_le.mp herr
    rw [abs_le]
    constructor <;> norm_num [FLT_MAX] <;> linarith
  refine ⟨_, encode_of_fin (.fin s) x _ (hdiv.trans hfin), ?_⟩
  have hnear := roundHalfAwayFromZero_near (TinyTensor.clip (flVal (x / s)))
  have hclip := abs_clip_sub_le (flVal (x / s)) (x / s) h1 h2
  calc |((roundHalfAwayFromZero (TinyTensor.clip (flVal (x / s))) : Int) : ℚ) - x / s|
      = |(((roundHalfAwayFromZero (TinyTensor.clip (flVal (x / s))) : Int) : ℚ)
          - TinyTensor.clip (flVal (x / s))) + (TinyTensor.clip (flVal (x / s)) - x / s)| := by
        congr 1; ring
    _ ≤ |((roundHalfAwayFromZero (TinyTensor.clip (flVal (x / s))) : Int) : ℚ)
          - TinyTensor.clip (flVal (x / s))| + |TinyTensor.clip (flVal (x / s)) - x / s| :=
        abs_add _ _
    _ ≤ 1 / 2 + 1 / 131072 := by linarith

/-- The code of a positive cell `v` under a positive finite scale within one
part in a million of `u` is within 1 of `min 127 (v / u)`. -/
theorem encode_of_pos (s u v : ℚ) (hu : 0 < u) (hv : 0 < v)
    (hlo : u * (999999 / 1000000) ≤ s) (hhi : s ≤ u * (1000001 / 1000000)) :
    ∃ c : Int, encode (.fin s) v = some c ∧ |(c : ℚ) - min 127 (v / u)| ≤ 1 := by
  have hs : 0 < s := by nlinarith
  have hsne : s ≠ 0 := ne_of_gt hs
  have hdiv : F32.div (.fin v) (.fin s) = fl (v / s) := by
    simp only [F32.div, hsne, if_false]
  have hz : 0 < v / s := div_pos hv hs
  have hT : 0 < v / u := div_pos hv hu
  have e1 : v / s * s = v := by field_simp
  have e2 : v / u * u = v := by field_simp
  -- the exact quotient by the float scale is within one part in a million of `v / u`
  have ha : v / s * (999999 / 1000000) ≤ v / u := by
    have h1 : v / s * (u * (999999 / 1000000)) ≤ v / s * s :=
      mul_le_mul_of_nonneg_left hlo (le_of_lt hz)
    have h2 : v / s * (999999 / 1000000) * u ≤ v / u * u := by
      calc v / s * (999999 / 1000000) * u = v / s * (u * (999999 / 1000000)) := by ring
        _ ≤ v / s * s := h1
        _ = v / u * u := by rw [e1, e2]
    exact le_of_mul_le_mul_right h2 hu
  have hb : v / u ≤ v / s * (1000001 / 1000000) := by
    have h1 : v / s * s ≤ v / s * (u * (1000001 / 1000000)) :=
      mul_le_mul_of_nonneg_left hhi (le_of_lt hz)
    have h2 : v / u * u ≤ v / s * (1000001 / 1000000) * u := by
      calc v / u * u = v / s * s := by rw [e1, e2]
        _ ≤ v / s * (u * (1000001 / 1000000)) := h1
        _ = v / s * (1000001 / 1000000) * u := by ring
    exact le_of_mul_le_mul_right h2 hu
  by_cases hbig : 130 ≤ v / u
  · -- both sides saturate at 127
    have hz129 : 129 ≤ v / s := by linarith
    have hmin : min 127 (v / u) = 127 := min_eq_left (by linarith)
    have hnorm : (2 : ℚ) ^ (-126 : Int) ≤ |v / s| := by
      rw [abs_of_pos hz]
      refine le_trans ?_ hz129
      norm_num
    have hrel := flVal_rel (v / s) hnorm
    rw [abs_of_pos hz, abs_le] at hrel
    rcases fl_cases (v / s) with hc | hc
    · have hq : 253 / 2 ≤ flVal (v / s) := by linarith
      have e := encode_of_fin (.fin s) v _ (hdiv.trans hc.1)
      rw [roundClip_of_ge _ hq] at e
      exact ⟨127, e, by rw [hmin]; norm_num⟩
    · rw [decide_eq_false (not_lt.mpr (le_of_lt hz))] at hc
      exact ⟨127, encode_of_posInf (.fin s) v (hdiv.trans hc.1), by rw [hmin]; norm_num⟩
  · have hT130 : v / u < 130 := not_le.mp hbig
    have hz131 : v / s < 131 := by linarith
    have hlt : |v / s| < (2 : ℚ) ^ (8 : Int) := by
      rw [abs_of_pos hz]; norm_num; linarith
    have herr := flVal_abs (v / s) 8 (by decide) hlt
    have h17 : (2 : ℚ) ^ ((8 : Int) - 24) / 2 = 1 / 131072 := by norm_num
    rw [h17] at herr
    have herr' := abs_le.mp herr
    have hq0 : 0 ≤ flVal (v / s) := flVal_nonneg _ (le_of_lt hz)
    have hfin : fl (v / s) = .fin (flVal (v / s)) := by
      apply fl_fin_of_le
      rw [abs_le]
      constructor <;> norm_num [FLT_MAX] <;> linarith
    refine ⟨_, encode_of_fin (.fin s) v _ (hdiv.trans hfin), ?_⟩
    have hnear := roundHalfAwayFromZero_near (TinyTensor.clip (flVal (v / s)))
    have hclip : TinyTensor.clip (flVal (v / s)) = min 127 (flVal (v / s)) := by
      rw [clip_eq_clamp]
      unfold clamp
      rw [min_comm]
      exact max_eq_right (le_min (by norm_num) (by linarith))
    have hmm := abs_min_sub_min_le_max 127 (flVal (v / s)) 127 (v / u)
    have hqT : |flVal (v / s) - v / u| ≤ 1 / 1000 := by
      rw [abs_le]
      constructor <;> linarith
    have hmm2 : |min 127 (flVal (v / s)) - min 127 (v / u)| ≤ 1 / 1000 := by
      refine le_trans hmm ?_
      simp only [sub_self, abs_zero]
      exact max_le (by norm_num) hqT
    rw [hclip] at hnear
    calc |((roundHalfAwayFromZero (TinyTensor.clip (flVal (v / s))) : Int) : ℚ)
          - min 127 (v / u)|
        = |(((roundHalfAwayFromZero (TinyTensor.clip (flVal (v / s))) : Int) : ℚ)
            - min 127 (flVal (v / s))) + (min 127 (flVal (v / s)) - min 127 (v / u))| := by
          congr 1; ring
      _ ≤ |((roundHalfAwayFromZero (TinyTensor.clip (flVal (v / s))) : Int) : ℚ)
            - min 127 (flVal (v / s))| + |min 127 (flVal (v / s)) - min 127 (v / u)| :=
          abs_add _ _
      _ ≤ 1 := by
          rw [hclip]
          linarith

end B32

/-- C15, as stated, fails in binary32.  For the input
`{0, 12632257 * 2^-31, 1}` (all binary32 values) the scale is
`8421505 * 2^-31`; the second cell's quotient `1.49999994` is not clamped and
rounds to the `float` `1.5`, so its code is 2, and `|2 * scale - x|` exceeds
`scale / 2`. -/
theorem C15_half_step_counterexample :
    B32.fl (12632257 / 2147483648) = .fin (12632257 / 2147483648) ∧
    (-128 : ℚ) ≤ (12632257 / 2147483648) / (8421505 / 2147483648) ∧
    ((12632257 : ℚ) / 2147483648) / (8421505 / 2147483648) ≤ 127 ∧
    ∃ r out,
      B32.quantize_tensor (f32Tensor [0, 12632257 / 2147483648, 1]) (i8Tensor [0, 0, 0])
        = some r ∧
      r.diag = [.banner, .params 0 1 (.fin (8421505 / 2147483648))] ∧
      r.output.data = some (.i8 out) ∧ out[1]? = some 2 ∧
      ¬ (|((2 : Int) : ℚ) * (8421505 / 2147483648) - 12632257 / 2147483648|
        ≤ (8421505 / 2147483648) / 2) := by
  have hm : minMaxOf [0, 12632257 / 2147483648, 1] = (0, 1) := by
    norm_num [minMaxOf, scanList]
  have hq : B32.quantScale [0, 12632257 / 2147483648, 1] = .fin (8421505 / 2147483648) := by
    unfold B32.quantScale
    rw [hm]
    exact B32.scaleOf_zero_one
  refine ⟨B32.fl_tie_cell, by norm_num, by norm_num, _, _,
    B32.quantize_tensor_closed _ _ [0, 12632257 / 2147483648, 1] [0, 0, 0] (f32Tensor_isF32 _)
      (i8Tensor_isI8 _) (by decide) (by decide) (by rw [hq]; simp), ?_, rfl, ?_, ?_⟩
  · rw [hq, hm]
  · rw [B32.getElem?_coded _ _ _ 1 (by decide), hq]
    exact congrArg some B32.codeOf_tie_cell
  · norm_num [abs_le]

/-- C15 (amended): reconstruction bound in binary32.  When the derived scale
`s` is a positive finite number, every cell whose exact quotient `x[i] / s`
lies in `[-128, 127]` gets a code `c` with
`|c * s - x[i]| ≤ s / 2 + s / 2^17`. -/
theorem C15_reconstruction_bound_binary32 (x y : Tensor) (xs : List ℚ) (ys : List Int)
    (mn mx s : ℚ) (hx : x.IsF32 xs) (hy : y.IsI8 ys) (hn : 1 ≤ xs.length)
    (hle : xs.length ≤ ys.length) (hmm : IsMinMax xs mn mx)
    (hs : B32.scaleOf mn mx = .fin s) (hpos : 0 < s) :
    ∃ (r : B32.QResult) (out : List Int), B32.quantize_tensor x y = some r ∧
      r.diag = [.banner, .params mn mx (.fin s)] ∧ r.output.data = some (.i8 out) ∧
      ∀ (i : Nat) (hi : i < xs.length), -128 ≤ xs[i] / s → xs[i] / s ≤ 127 →
        ∃ c : Int, out[i]? = some c ∧ |(c : ℚ) * s - xs[i]| ≤ s / 2 + s / 131072 := by
  have hq : B32.quantScale xs = .fin s := by
    rw [B32.quantScale_of_isMinMax xs mn mx hn hmm, hs]
  obtain ⟨e1, e2⟩ := isMinMax_unique xs mn mx hn hmm
  refine ⟨_, _,
    B32.quantize_tensor_closed x y xs ys hx hy hn hle (by rw [hq]; simp [ne_of_gt hpos]),
    ?_, rfl, ?_⟩
  · rw [hq, ← e1, ← e2]
  · intro i hi h1 h2
    obtain ⟨c, hc, hnear⟩ := B32.encode_near s xs[i] hpos h1 h2
    refine ⟨c, ?_, ?_⟩
    · rw [B32.getElem?_coded xs ys _ i hi, hq]
      unfold B32.codeOf
      rw [hc]
      rfl
    · have hxs : xs[i] = xs[i] / s * s := by
        field_simp
      have hfac : (c : ℚ) * s - xs[i] = ((c : ℚ) - xs[i] / s) * s := by
        rw [sub_mul, ← hxs]
      rw [hfac, abs_mul, abs_of_pos hpos]
      calc |(c : ℚ) - xs[i] / s| * s ≤ (1 / 2 + 1 / 131072) * s :=
            mul_le_mul_of_nonneg_right hnear (le_of_lt hpos)
        _ = s / 2 + s / 131072 := by ring

/-- C15 (amended) at the input `{0, 12632257 * 2^-31, 1}`. -/
theorem C15_reconstruction_bound_binary32_witness :
    ∃ (r : B32.QResult) (out : List Int),
      B32.quantize_tensor (f32Tensor [0, 12632257 / 2147483648, 1]) (i8Tensor [0, 0, 0])
        = some r ∧
      r.diag = [.banner, .params 0 1 (.fin (8421505 / 2147483648))] ∧
      r.output.data = some (.i8 out) ∧
      ∀ (i : Nat) (hi : i < [(0 : ℚ), 12632257 / 2147483648, 1].length),
        -128 ≤ [(0 : ℚ), 12632257 / 2147483648, 1][i] / (8421505 / 2147483648) →
        [(0 : ℚ), 12632257 / 2147483648, 1][i] / (8421505 / 2147483648) ≤ 127 →
        ∃ c : Int, out[i]? = some c ∧
          |(c : ℚ) * (8421505 / 2147483648) - [(0 : ℚ), 12632257 / 2147483648, 1][i]|
            ≤ (8421505 / 2147483648) / 2 + (8421505 / 2147483648) / 131072 :=
  C15_reconstruction_bound_binary32 (f32Tensor [0, 12632257 / 2147483648, 1])
    (i8Tensor [0, 0, 0]) [0, 12632257 / 2147483648, 1] [0, 0, 0] 0 1 (8421505 / 2147483648)
    (f32Tensor_isF32 _) (i8Tensor_isI8 _) (by decide) (by decide)
    ⟨by simp, by
      intro a ha
      simp only [List.mem_cons, List.mem_singleton, List.not_mem_nil, or_false] at ha
      rcases ha with h | h | h <;> rw [h] <;> norm_num,
     by simp, by
      intro a ha
      simp only [List.mem_cons, List.mem_singleton, List.not_mem_nil, or_false] at ha
      rcases ha with h | h | h <;> rw [h] <;> norm_num⟩
    B32.scaleOf_zero_one (by norm_num)

/-- C17, as stated, fails: for the non-constant input `{-1, 1}` with positive
maximum 1 the code of the maximum is 127 (the binary32 codes are
`{-127, 127}`), while `127 * max / (max - min)` is `63.5`. -/
theorem C17_max_code_counterexample :
    ∃ r, B32.quantize_tensor (f32Tensor [-1, 1]) (i8Tensor [0, 0]) = some r ∧
      r.diag = [.banner, .params (-1) 1 (.fin (8421505 / 1073741824))] ∧
      r.output.data = some (.i8 [-127, 127]) ∧
      ¬ (|((127 : Int) : ℚ) - 127 * 1 / (1 - (-1))| ≤ 1) := by
  have hm : minMaxOf [-1, 1] = (-1, 1) := by norm_num [minMaxOf, scanList]
  have hq : B32.quantScale [-1, 1] = .fin (8421505 / 1073741824) := by
    unfold B32.quantScale
    rw [hm]
    exact B32.scaleOf_neg_one_one
  refine ⟨_, B32.quantize_tensor_closed _ _ [-1, 1] [0, 0] (f32Tensor_isF32 _) (i8Tensor_isI8 _)
    (by decide) (by decide) (by rw [hq]; simp), ?_, ?_, ?_⟩
  · rw [hq, hm]
  · rw [hq]
    simp [B32.codeOf_neg_one, B32.codeOf_pos_one]
  · norm_num [abs_le]

/-- C17 (amended): in binary32, for an input whose range `max - min` is at
least `2^-117` and does not overflow (its binary32 value is finite) and
whose maximum is positive, the code written for a maximum cell is within 1
of `min 127 (255 * max / (max - min))`. -/
theorem C17_max_code_binary32 (x y : Tensor) (xs : List ℚ) (ys : List Int) (m : Nat)
    (hm : m < xs.length) (mn mx r : ℚ) (hx : x.IsF32 xs) (hy : y.IsI8 ys)
    (hle : xs.length ≤ ys.length) (hmm : IsMinMax xs mn mx)
    (hlow : (2 : ℚ) ^ (-117 : Int) ≤ mx - mn) (hfin : B32.fl (mx - mn) = .fin r)
    (hcell : xs[m] = mx) (hpos : 0 < mx) :
    ∃ (res : B32.QResult) (out : List Int) (c : Int),
      B32.quantize_tensor x y = some res ∧ res.output.data = some (.i8 out) ∧
      out[m]? = some c ∧ |(c : ℚ) - min 127 (255 * mx / (mx - mn))| ≤ 1 := by
  have hn : 1 ≤ xs.length := by omega
  obtain ⟨s, hs, hspos, hslo, hshi⟩ := B32.scaleOf_bounds mn mx r hlow hfin
  have hqs : B32.quantScale xs = .fin s := by
    rw [B32.quantScale_of_isMinMax xs mn mx hn hmm, hs]
  have hz1 : 0 < mx - mn := lt_of_lt_of_le (B32.two_zpow_pos _) hlow
  obtain ⟨c, hc, hnear⟩ :=
    B32.encode_of_pos s ((mx - mn) / 255) mx (by positivity) hpos hslo hshi
  have hT : mx / ((mx - mn) / 255) = 255 * mx / (mx - mn) := by
    field_simp
    ring
  rw [hT] at hnear
  refine ⟨_, _, c,
    B32.quantize_tensor_closed x y xs ys hx hy hn hle (by rw [hqs]; simp [ne_of_gt hspos]),
    rfl, ?_, hnear⟩
  rw [B32.getElem?_coded xs ys _ m hm, hqs, hcell]
  unfold B32.codeOf
  rw [hc]
  rfl

/-- C17 (amended) at the input `{-1, 1}` and its second cell, the maximum. -/
theorem C17_max_code_binary32_witness :
    ∃ (res : B32.QResult) (out : List Int) (c : Int),
      B32.quantize_tensor (f32Tensor [-1, 1]) (i8Tensor [0, 0]) = some res ∧
      res.output.data = some (.i8 out) ∧
      out[1]? = some c ∧ |(c : ℚ) - min 127 (255 * 1 / (1 - -1))| ≤ 1 :=
  C17_max_code_binary32 (f32Tensor [-1, 1]) (i8Tensor [0, 0]) [-1, 1] [0, 0] 1 (by decide)
    (-1) 1 2 (f32Tensor_isF32 _) (i8Tensor_isI8 _) (by decide)
    ⟨by simp, by
      intro a ha
      simp only [List.mem_cons, List.mem_singleton, List.not_mem_nil, or_false] at ha
      rcases ha with rfl | rfl <;> norm_num,
     by simp, by
      intro a ha
      simp only [List.mem_cons, List.mem_singleton, List.not_mem_nil, or_false] at ha
      rcases ha with rfl | rfl <;> norm_num⟩
    (by norm_num)
    (by
      have h2 : (1 : ℚ) - -1 = 2 := by norm_num
      rw [h2]
      exact B32.fl_two)
    rfl (by norm_num)

namespace B32

/-- On the path past the dtype guard the printed lines are the banner and the
parameter line, never the mismatch line. -/
theorem quantize_tensor_lines (x y : Tensor) (r : QResult)
    (hx : x.dtype = .DTYPE_FLOAT32) (hy : y.dtype = .DTYPE_INT8)
    (h : quantize_tensor x y = some r) :
    ∃ mn mx sc, r.diag = [.banner, .params mn mx sc] := by
  unfold quantize_tensor at h
  rw [hx, hy] at h
  simp only [ne_eq, not_true_eq_false, or_self, if_false] at h
  split at h
  · split at h
    · exact absurd h (by simp)
    · split at h
      · exact absurd h (by simp)
      · split at h
        · simp only [Option.some.injEq] at h
          rw [← h]; exact ⟨_, _, _, rfl⟩
        · split at h
          · simp only [Option.map_eq_some'] at h
            obtain ⟨o, _, ho⟩ := h
            rw [← ho]; exact ⟨_, _, _, rfl⟩
          · exact absurd h (by simp)
  · exact absurd h (by simp)

theorem quantize_tensor_mismatch (x y : Tensor)
    (h : x.dtype ≠ .DTYPE_FLOAT32 ∨ y.dtype ≠ .DTYPE_INT8) :
    quantize_tensor x y = some { input := x, output := y, diag := [.typeMismatch] } := by
  unfold quantize_tensor
  rw [if_pos h]

theorem fl_three : fl 3 = .fin 3 :=
  fl_eq_of 3 1 12582912 (-22) _ (by norm_num) (by norm_num) (by norm_num) (by decide)
    (by norm_num) (by norm_num) (by norm_num) (by norm_num [FLT_MAX])

/-- A type-correct call that leaves its output as it was: `{3, 3}` into an
output already holding `{3, 3}`. -/
theorem quantize_three_three :
    quantize_tensor (f32Tensor [3, 3]) (i8Tensor [3, 3]) = some
      { input := f32Tensor [3, 3], output := i8Tensor [3, 3]
        diag := [.banner, .params 3 3 (.fin 1)] } := by
  have hm : minMaxOf [3, 3] = (3, 3) := by norm_num [minMaxOf, scanList]
  have hsc : scaleOf 3 3 = .fin 1 := by
    unfold scaleOf
    simp only [sub_self, fl_zero]
    simp [F32.eq]
  have hq : quantScale [3, 3] = .fin 1 := by
    unfold quantScale
    rw [hm]
    exact hsc
  have hdiv : F32.div (.fin 3) (.fin 1) = .fin 3 := by
    have h1 : (1 : ℚ) ≠ 0 := by norm_num
    simp only [F32.div, h1, if_false, div_one]
    exact fl_three
  have hcode : codeOf (.fin 1) 3 = 3 :=
    codeOf_of_fin _ _ _ _ hdiv (by
      norm_num [roundHalfAwayFromZero, TinyTensor.clip, Int.ceil_eq_iff, Int.floor_eq_iff])
  have h := quantize_tensor_closed (f32Tensor [3, 3]) (i8Tensor [3, 3]) [3, 3] [3, 3]
    (f32Tensor_isF32 _) (i8Tensor_isI8 _) (by decide) (le_refl 2) (by rw [hq]; simp)
  rw [h, hq, hm]
  simp [hcode, i8Tensor]

end B32

/-- C4, as stated, fails in its signalling half: nothing reaches the caller.
A mismatched call (I8 input, F32 output) and a type-correct call (`{3, 3}`
into an output already holding `{3, 3}`) hand back the same value and both
leave their two tensors exactly as they were; they differ only in the line
printed to standard output. -/
theorem C4_no_signal_counterexample :
    ((i8Tensor [1, 2]).dtype ≠ .DTYPE_FLOAT32 ∨ (f32Tensor [1 / 2, 1 / 4]).dtype ≠ .DTYPE_INT8) ∧
    ¬ ((f32Tensor [3, 3]).dtype ≠ .DTYPE_FLOAT32 ∨ (i8Tensor [3, 3]).dtype ≠ .DTYPE_INT8) ∧
    B32.returnValue (i8Tensor [1, 2]) (f32Tensor [1 / 2, 1 / 4])
      = B32.returnValue (f32Tensor [3, 3]) (i8Tensor [3, 3]) ∧
    (∃ r, B32.quantize_tensor (i8Tensor [1, 2]) (f32Tensor [1 / 2, 1 / 4]) = some r ∧
      r.input = i8Tensor [1, 2] ∧ r.output = f32Tensor [1 / 2, 1 / 4] ∧
      r.diag = [.typeMismatch]) ∧
    (∃ r, B32.quantize_tensor (f32Tensor [3, 3]) (i8Tensor [3, 3]) = some r ∧
      r.input = f32Tensor [3, 3] ∧ r.output = i8Tensor [3, 3] ∧
      r.diag = [.banner, .params 3 3 (.fin 1)]) := by
  have hmis : (i8Tensor [1, 2]).dtype ≠ .DTYPE_FLOAT32 ∨
      (f32Tensor [1 / 2, 1 / 4]).dtype ≠ .DTYPE_INT8 := Or.inl (by decide)
  refine ⟨hmis, by decide, ?_, ⟨_, B32.quantize_tensor_mismatch _ _ hmis, rfl, rfl, rfl⟩,
    ⟨_, B32.quantize_three_three, rfl, rfl, rfl⟩⟩
  unfold B32.returnValue
  rw [B32.quantize_tensor_mismatch _ _ hmis, B32.quantize_three_three]
  rfl

/-- C4 (amended): `quantize_tensor` hands nothing back to its caller (it is
`void`: every call that returns hands back the unit value).  It prints the
mismatch line exactly when the input is not F32 or the output is not I8, and
in that case it is a no-op: both tensors are left as they were. -/
theorem C4_type_mismatch_prints_noop (x y : Tensor) :
    (∀ r, B32.quantize_tensor x y = some r → B32.returnValue x y = some ()) ∧
    ((∃ r, B32.quantize_tensor x y = some r ∧ B32.Diag.typeMismatch ∈ r.diag) ↔
      (x.dtype ≠ .DTYPE_FLOAT32 ∨ y.dtype ≠ .DTYPE_INT8)) ∧
    ((x.dtype ≠ .DTYPE_FLOAT32 ∨ y.dtype ≠ .DTYPE_INT8) →
      B32.quantize_tensor x y = some { input := x, output := y, diag := [.typeMismatch] }) := by
  refine ⟨?_, ⟨?_, ?_⟩, B32.quantize_tensor_mismatch x y⟩
  · intro r hr
    unfold B32.returnValue
    rw [hr]
    rfl
  · rintro ⟨r, hr, hmem⟩
    by_contra hc
    push_neg at hc
    obtain ⟨mn, mx, sc, hd⟩ := B32.quantize_tensor_lines x y r hc.1 hc.2 hr
    rw [hd] at hmem
    simp at hmem
  · intro h
    exact ⟨_, B32.quantize_tensor_mismatch x y h, by simp⟩

/-- C4 (amended) at an I8 input `{1, 2}` with an F32 output `{1/2, 1/4}`. -/
theorem C4_type_mismatch_prints_noop_witness :
    ((i8Tensor [1, 2]).dtype ≠ .DTYPE_FLOAT32 ∨ (f32Tensor [1 / 2, 1 / 4]).dtype ≠ .DTYPE_INT8) ∧
    B32.quantize_tensor (i8Tensor [1, 2]) (f32Tensor [1 / 2, 1 / 4]) =
      some { input := i8Tensor [1, 2], output := f32Tensor [1 / 2, 1 / 4],
             diag := [.typeMismatch] } ∧
    B32.returnValue (i8Tensor [1, 2]) (f32Tensor [1 / 2, 1 / 4]) = some () :=
  ⟨Or.inl (by decide),
    (C4_type_mismatch_prints_noop (i8Tensor [1, 2]) (f32Tensor [1 / 2, 1 / 4])).2.2
      (Or.inl (by decide)),
    (C4_type_mismatch_prints_noop (i8Tensor [1, 2]) (f32Tensor [1 / 2, 1 / 4])).1 _
      ((C4_type_mismatch_prints_noop (i8Tensor [1, 2]) (f32Tensor [1 / 2, 1 / 4])).2.2
        (Or.inl (by decide)))⟩

end TinyTensor
